import Mathlib

/-!
# City infrastructure analyzer: district tree traversals and road network queries

A shallow embedding of `src/main.cpp`.

* Pointers into `list<City>` (which never relocates or removes its elements) are
  modelled as positions in the list of cities; `nullptr` is `none`.
* `unsigned` is a 32-bit machine integer: a `Nat` below `2^32`, with every
  addition reduced modulo `2^32`.
* `std::stack`, `std::queue` are lists; `std::priority_queue<City*, vector<City*>, cmp>`
  is the binary heap stored in a vector, with `push = push_back; push_heap` and
  `pop = pop_heap; pop_back`, the heap algorithms being those of libstdc++
  (`bits/stl_heap.h`).  The comparator reads the *current* `searchInfo.distance`
  of the cities the stored pointers refer to.
* Loops carry a fuel argument and return `none` when the fuel is exhausted; the
  entry points supply a fuel that is proved sufficient (the queries return `some`
  result on every network).  The two inner heap loops return the vector; their fuel
  is proved to outlast the loop (`pushHeapLoop_fuel`, `adjustHeapLoop_fuel`).
-/

namespace CityInfra

/-! ## City district tree -/

/-- A district node: `char symbol; list<DistrictNode*> subdistricts`. -/
inductive DistrictNode where
  | mk (symbol : Char) (subdistricts : List DistrictNode)
  deriving Repr

/-- Field `symbol`. -/
def DistrictNode.symbol : DistrictNode → Char
  | .mk s _ => s

/-- Field `subdistricts`. -/
def DistrictNode.subdistricts : DistrictNode → List DistrictNode
  | .mk _ cs => cs

/-- A district tree: `DistrictNode* root`, `none` for `nullptr`. -/
structure DistrictTree where
  root : Option DistrictNode

/-- The C function `isupper` in the default "C" locale: the ASCII letters `A`..`Z`. -/
def isupper (c : Char) : Bool :=
  decide (65 ≤ c.toNat) && decide (c.toNat ≤ 90)

mutual
/-- Number of nodes of a tree. -/
def DistrictNode.size : DistrictNode → Nat
  | .mk _ cs => 1 + DistrictNode.sizeList cs
/-- Number of nodes of a forest. -/
def DistrictNode.sizeList : List DistrictNode → Nat
  | [] => 0
  | c :: cs => DistrictNode.size c + DistrictNode.sizeList cs
end

/-- The reverse iteration `for (it = rbegin; it != rend; ++it) nodeStack.push(*it)`;
the head of the list is the top of the stack. -/
def pushReversed (subdistricts : List DistrictNode) (nodeStack : List DistrictNode) :
    List DistrictNode :=
  subdistricts.reverse.foldl (fun st child => child :: st) nodeStack

/-- The `while (!nodeStack.empty())` loop of `findUppercaseDFS`. -/
def dfsLoop : Nat → List DistrictNode → List Char → Option (List Char)
  | _, [], result => some result
  | 0, _ :: _, _ => none
  | fuel + 1, current :: nodeStack, result =>
    dfsLoop fuel (pushReversed current.subdistricts nodeStack)
      (if isupper current.symbol then result ++ [current.symbol] else result)

/-- `DistrictTree::findUppercaseDFS`. -/
def DistrictTree.findUppercaseDFS (t : DistrictTree) : Option (List Char) :=
  match t.root with
  | none => some []
  | some root => dfsLoop root.size [root] []

/-- The iteration `for (child : current->subdistricts) nodeQueue.push(child)`;
the head of the list is the front of the queue. -/
def pushAll (subdistricts : List DistrictNode) (nodeQueue : List DistrictNode) :
    List DistrictNode :=
  subdistricts.foldl (fun q child => q ++ [child]) nodeQueue

/-- The `while (!nodeQueue.empty())` loop of `findUppercaseBFS`. -/
def bfsLoop : Nat → List DistrictNode → List Char → Option (List Char)
  | _, [], result => some result
  | 0, _ :: _, _ => none
  | fuel + 1, current :: nodeQueue, result =>
    bfsLoop fuel (pushAll current.subdistricts nodeQueue)
      (if isupper current.symbol then result ++ [current.symbol] else result)

/-- `DistrictTree::findUppercaseBFS`. -/
def DistrictTree.findUppercaseBFS (t : DistrictTree) : Option (List Char) :=
  match t.root with
  | none => some []
  | some root => bfsLoop root.size [root] []

/-- `createCityDistrictTree`: `C -> (N, S)`, `N -> (A, B)`, `S -> (W)`. -/
def createCityDistrictTree : DistrictTree :=
  let A := DistrictNode.mk 'A' []
  let B := DistrictNode.mk 'B' []
  let W := DistrictNode.mk 'W' []
  let N := DistrictNode.mk 'N' [A, B]
  let S := DistrictNode.mk 'S' [W]
  ⟨some (DistrictNode.mk 'C' [N, S])⟩

mutual
/-- Recursive left-to-right pre-order walk keeping the uppercase symbols. -/
def preorderUpper : DistrictNode → List Char
  | .mk s cs => (if isupper s then [s] else []) ++ preorderUpperList cs
/-- Pre-order walk of a forest, tree after tree. -/
def preorderUpperList : List DistrictNode → List Char
  | [] => []
  | c :: cs => preorderUpper c ++ preorderUpperList cs
end

mutual
/-- Height of a tree (number of levels). -/
def DistrictNode.height : DistrictNode → Nat
  | .mk _ cs => 1 + DistrictNode.heightList cs
/-- Largest height in a forest. -/
def DistrictNode.heightList : List DistrictNode → Nat
  | [] => 0
  | c :: cs => max (DistrictNode.height c) (DistrictNode.heightList cs)
end

mutual
/-- The nodes of depth `d` of a tree (the root has depth 0), left to right. -/
def nodesAtDepth : Nat → DistrictNode → List DistrictNode
  | 0, n => [n]
  | d + 1, .mk _ cs => nodesAtDepthList d cs
/-- The nodes of depth `d` of the trees of a forest, tree after tree. -/
def nodesAtDepthList : Nat → List DistrictNode → List DistrictNode
  | _, [] => []
  | d, c :: cs => nodesAtDepth d c ++ nodesAtDepthList d cs
end

/-- The uppercase symbols of depth `d`, left to right. -/
def upperAtDepth (d : Nat) (n : DistrictNode) : List Char :=
  ((nodesAtDepth d n).map DistrictNode.symbol).filter isupper

/-- Level order: depth 0, then depth 1, and so on down to the last level. -/
def levelOrderUpper (n : DistrictNode) : List Char :=
  (List.range n.height).flatMap (fun d => upperAtDepth d n)

/-! ## City road network -/

/-- The value `numeric_limits<unsigned>::max()`, used as "infinity". -/
def UINT_MAX : Nat := 4294967295

/-- Per-city search data; `previous` is a pointer to a city or `nullptr`. -/
structure SearchInfo where
  discovered : Bool
  distance : Nat
  previous : Option Nat
  finalized : Bool
  deriving DecidableEq, Repr

/-- `SearchInfo::reset`. -/
def SearchInfo.reset (_ : SearchInfo) : SearchInfo :=
  ⟨false, UINT_MAX, none, false⟩

/-- A road entry of a city: `City* destination; unsigned length`. -/
structure RoadConnection where
  destination : Nat
  length : Nat
  deriving DecidableEq, Repr

/-- A city: `string name; list<RoadConnection> connections; SearchInfo searchInfo`. -/
structure City where
  name : String
  connections : List RoadConnection
  searchInfo : SearchInfo
  deriving DecidableEq, Repr

/-- `City::resetSearchInfo`. -/
def City.resetSearchInfo (c : City) : City :=
  ⟨c.name, c.connections, c.searchInfo.reset⟩

/-- The constructor `City(string name)`: no connections, search data reset. -/
def City.new (name : String) : City :=
  City.resetSearchInfo ⟨name, [], ⟨false, 0, none, false⟩⟩

/-- The network: `list<City> cities`. -/
structure CityNetwork where
  cities : List City
  deriving DecidableEq, Repr

/-- The network of a default-constructed `CityNetwork`. -/
def CityNetwork.empty : CityNetwork := ⟨[]⟩

/-- `CityNetwork::addCity`. -/
def CityNetwork.addCity (net : CityNetwork) (name : String) : CityNetwork :=
  ⟨net.cities ++ [City.new name]⟩

/-- The scan of `findCity` over a list of cities: position of the first city with the name. -/
def findCityIn : List City → String → Option Nat
  | [], _ => none
  | city :: rest, name =>
    if city.name = name then some 0 else (findCityIn rest name).map (· + 1)

/-- `CityNetwork::findCity`; `none` is `nullptr`. -/
def CityNetwork.findCity (net : CityNetwork) (name : String) : Option Nat :=
  findCityIn net.cities name

/-- The call `city->connections.emplace_back(destination, length)` on the city at position `i`. -/
def emplaceConnection (cities : List City) (i : Nat) (destination length : Nat) : List City :=
  cities.modify (fun c => ⟨c.name, c.connections ++ [⟨destination, length⟩], c.searchInfo⟩) i

/-- `CityNetwork::addRoad`; the parameter of type `unsigned` holds its argument modulo `2^32`. -/
def CityNetwork.addRoad (net : CityNetwork) (fromName toName : String) (length : Nat) :
    CityNetwork :=
  match net.findCity fromName, net.findCity toName with
  | some sourceCity, some destCity =>
    ⟨emplaceConnection (emplaceConnection net.cities sourceCity destCity (length % 4294967296))
      destCity sourceCity (length % 4294967296)⟩
  | _, _ => net

/-- `CityNetwork::resetSearchData`. -/
def CityNetwork.resetSearchData (net : CityNetwork) : CityNetwork :=
  ⟨net.cities.map City.resetSearchInfo⟩

/-- Reads `city->searchInfo.discovered` through a pointer.  A position outside the list
stands for a dangling pointer, which no network has; it is never followed. -/
def discoveredOf (cities : List City) (i : Nat) : Bool :=
  match cities[i]? with
  | some c => c.searchInfo.discovered
  | none => true

/-- Writes `city->searchInfo.discovered = true` through a pointer. -/
def setDiscovered (cities : List City) (i : Nat) : List City :=
  cities.modify (fun c =>
    ⟨c.name, c.connections, ⟨true, c.searchInfo.distance, c.searchInfo.previous,
      c.searchInfo.finalized⟩⟩) i

/-- The `for (road : current->connections)` loop of `findReachableCities`, on the
pair of the cities and the queue (front of the queue first). -/
def visitRoads : List RoadConnection → List City × List Nat → List City × List Nat
  | [], s => s
  | road :: rest, (cities, q) =>
    if discoveredOf cities road.destination = false then
      visitRoads rest (setDiscovered cities road.destination, q ++ [road.destination])
    else visitRoads rest (cities, q)

/-- The `while (!q.empty())` loop of `findReachableCities`. -/
def reachLoop : Nat → List City → List Nat → List String → Option (List String × List City)
  | _, cities, [], result => some (result, cities)
  | 0, _, _ :: _, _ => none
  | fuel + 1, cities, current :: q, result =>
    match cities[current]? with
    | none => none
    | some c =>
      reachLoop fuel (visitRoads c.connections (cities, q)).1
        (visitRoads c.connections (cities, q)).2 (result ++ [c.name])

/-- `CityNetwork::findReachableCities`: the returned list and the network afterwards. -/
def CityNetwork.findReachableCities (net : CityNetwork) (startCity : String) :
    Option (List String × CityNetwork) :=
  match net.resetSearchData.findCity startCity with
  | none => some ([], net.resetSearchData)
  | some start =>
    (reachLoop net.cities.length (setDiscovered net.resetSearchData.cities start)
      [start] []).map (fun r => (r.1, ⟨r.2⟩))

/-- Reads `city->searchInfo.distance` through a pointer.  A position outside the list
stands for a dangling pointer, which no network has; it is never relaxed. -/
def distanceOf (cities : List City) (i : Nat) : Nat :=
  match cities[i]? with
  | some c => c.searchInfo.distance
  | none => 0

/-- The comparator `cmp` of `calculateShortestPaths`:
`a->searchInfo.distance > b->searchInfo.distance`. -/
def cmp (cities : List City) (a b : Nat) : Bool :=
  decide (distanceOf cities a > distanceOf cities b)

/-- The loop of `std::__push_heap`: move the hole up while it is below `topIndex`'s
position and the parent compares before `value`; then store `value` in the hole.
The hole index strictly decreases, so a fuel of `holeIndex` never runs out. -/
def pushHeapLoop (cities : List City) (value topIndex : Nat) :
    Nat → List Nat → Nat → List Nat
  | 0, first, holeIndex => first.set holeIndex value
  | fuel + 1, first, holeIndex =>
    if holeIndex > topIndex && cmp cities (first.getD ((holeIndex - 1) / 2) 0) value then
      pushHeapLoop cities value topIndex fuel
        (first.set holeIndex (first.getD ((holeIndex - 1) / 2) 0)) ((holeIndex - 1) / 2)
    else first.set holeIndex value

/-- The function `std::__push_heap(first, holeIndex, topIndex, value, comp)`. -/
def pushHeapAt (cities : List City) (first : List Nat) (holeIndex topIndex value : Nat) :
    List Nat :=
  pushHeapLoop cities value topIndex holeIndex first holeIndex

/-- The function `std::push_heap` on the whole vector, whose last element is the new one. -/
def push_heap (cities : List City) (c : List Nat) : List Nat :=
  pushHeapAt cities c (c.length - 1) 0 (c.getD (c.length - 1) 0)

/-- The call `pq.push(x)`: `c.push_back(x); push_heap(c.begin(), c.end(), comp)`. -/
def pqPush (cities : List City) (c : List Nat) (x : Nat) : List Nat :=
  push_heap cities (c ++ [x])

/-- The first loop of `std::__adjust_heap`: move the hole down to the child that does
not compare before its sibling, while the hole has two children.  Returns the vector,
the hole index and `secondChild`. -/
def adjustHeapLoop (cities : List City) (len : Nat) :
    Nat → List Nat → Nat → Nat → List Nat × Nat × Nat
  | 0, first, holeIndex, secondChild => (first, holeIndex, secondChild)
  | fuel + 1, first, holeIndex, secondChild =>
    if secondChild < (len - 1) / 2 then
      let sc := 2 * (secondChild + 1)
      let sc := if cmp cities (first.getD sc 0) (first.getD (sc - 1) 0) then sc - 1 else sc
      adjustHeapLoop cities len fuel (first.set holeIndex (first.getD sc 0)) sc sc
    else (first, holeIndex, secondChild)

/-- The function `std::__adjust_heap(first, holeIndex, len, value, comp)`. -/
def adjustHeap (cities : List City) (first : List Nat) (holeIndex len value : Nat) :
    List Nat :=
  match adjustHeapLoop cities len len first holeIndex holeIndex with
  | (first, hole, secondChild) =>
    if len % 2 = 0 ∧ secondChild = (len - 2) / 2 then
      pushHeapAt cities (first.set hole (first.getD (2 * (secondChild + 1) - 1) 0))
        (2 * (secondChild + 1) - 1) holeIndex value
    else pushHeapAt cities first hole holeIndex value

/-- The function `std::pop_heap` on the whole vector: the first element is moved to the
last position and the old last element is sifted into the remaining range. -/
def pop_heap (cities : List City) (c : List Nat) : List Nat :=
  if c.length > 1 then
    adjustHeap cities (c.set (c.length - 1) (c.getD 0 0)) 0 (c.length - 1)
      (c.getD (c.length - 1) 0)
  else c

/-- The call `pq.pop()`: `pop_heap(c.begin(), c.end(), comp); c.pop_back()`. -/
def pqPop (cities : List City) (c : List Nat) : List Nat :=
  (pop_heap cities c).dropLast

/-- Writes `distance = newDist; previous = current` through the pointer `destination`. -/
def setDistance (cities : List City) (destination newDist current : Nat) : List City :=
  cities.modify (fun c =>
    ⟨c.name, c.connections, ⟨c.searchInfo.discovered, newDist, some current,
      c.searchInfo.finalized⟩⟩) destination

/-- Writes `city->searchInfo.finalized = true` through a pointer. -/
def setFinalized (cities : List City) (i : Nat) : List City :=
  cities.modify (fun c =>
    ⟨c.name, c.connections, ⟨c.searchInfo.discovered, c.searchInfo.distance,
      c.searchInfo.previous, true⟩⟩) i

/-- Writes `start->searchInfo.distance = 0` through a pointer. -/
def setStartDistance (cities : List City) (i : Nat) : List City :=
  cities.modify (fun c =>
    ⟨c.name, c.connections, ⟨c.searchInfo.discovered, 0, c.searchInfo.previous,
      c.searchInfo.finalized⟩⟩) i

/-- The relaxation loop `for (road : current->connections)` of `calculateShortestPaths`,
on the pair of the cities and the heap vector.  `current->searchInfo.distance` is read
anew for every road; the sum is an `unsigned` sum. -/
def relaxRoads (current : Nat) :
    List RoadConnection → List City × List Nat → List City × List Nat
  | [], s => s
  | road :: rest, (cities, pq) =>
    if (distanceOf cities current + road.length) % 4294967296
        < distanceOf cities road.destination then
      relaxRoads current rest
        (setDistance cities road.destination
            ((distanceOf cities current + road.length) % 4294967296) current,
          pqPush (setDistance cities road.destination
            ((distanceOf cities current + road.length) % 4294967296) current)
            pq road.destination)
    else relaxRoads current rest (cities, pq)

/-- The `while (!pq.empty())` loop of `calculateShortestPaths`; `pq.top()` is the
first element of the heap vector. -/
def dijkstraLoop : Nat → List City → List Nat → Option (List City)
  | _, cities, [] => some cities
  | 0, _, _ :: _ => none
  | fuel + 1, cities, current :: rest =>
    match cities[current]? with
    | none => none
    | some c =>
      if c.searchInfo.finalized then
        dijkstraLoop fuel cities (pqPop cities (current :: rest))
      else
        dijkstraLoop fuel
          (relaxRoads current c.connections
            (setFinalized cities current, pqPop cities (current :: rest))).1
          (relaxRoads current c.connections
            (setFinalized cities current, pqPop cities (current :: rest))).2

/-- Lexicographic comparison of the characters of two strings, `std::string`'s `<`. -/
def lexLess : List Char → List Char → Bool
  | _, [] => false
  | [], _ :: _ => true
  | a :: as, b :: bs =>
    if a.toNat < b.toNat then true
    else if b.toNat < a.toNat then false
    else lexLess as bs

/-- The assignment `result[key] = value` on a `map<string, unsigned>`, kept as the list
of its entries in increasing key order. -/
def mapAssign : List (String × Nat) → String → Nat → List (String × Nat)
  | [], key, value => [(key, value)]
  | (k, v) :: rest, key, value =>
    if lexLess key.data k.data then (key, value) :: (k, v) :: rest
    else if lexLess k.data key.data then (k, v) :: mapAssign rest key value
    else (k, value) :: rest

/-- The final loop of `calculateShortestPaths` over all cities. -/
def collectDistances : List City → List (String × Nat) → List (String × Nat)
  | [], result => result
  | city :: rest, result =>
    if city.searchInfo.distance ≠ UINT_MAX then
      collectDistances rest (mapAssign result city.name city.searchInfo.distance)
    else collectDistances rest result

/-- Total number of road entries of all cities. -/
def connectionCount (cities : List City) : Nat :=
  (cities.map (fun c => c.connections.length)).sum

/-- `CityNetwork::calculateShortestPaths`: the returned map and the network afterwards.
Every loop iteration pops one heap entry and at most one entry is pushed per road
entry of a city, once, so `connectionCount + 1` iterations suffice. -/
def CityNetwork.calculateShortestPaths (net : CityNetwork) (startCity : String) :
    Option (List (String × Nat) × CityNetwork) :=
  match net.resetSearchData.findCity startCity with
  | none => some ([], net.resetSearchData)
  | some start =>
    (dijkstraLoop (connectionCount net.cities + 1)
      (setStartDistance net.resetSearchData.cities start)
      (pqPush (setStartDistance net.resetSearchData.cities start) [] start)).map
      (fun cities => (collectDistances cities [], ⟨cities⟩))

/-- A construction step of a network. -/
inductive BuildOp where
  | addCity (name : String)
  | addRoad (fromName toName : String) (length : Nat)
  deriving Repr

/-- Applies one construction step. -/
def BuildOp.apply (net : CityNetwork) : BuildOp → CityNetwork
  | .addCity name => net.addCity name
  | .addRoad a b w => net.addRoad a b w

/-- The network built from the empty network by a sequence of `addCity`/`addRoad` calls. -/
def build (ops : List BuildOp) : CityNetwork :=
  ops.foldl BuildOp.apply CityNetwork.empty

/-- The construction steps of `demonstrateRoadNetworkAnalysis`. -/
def demoOps : List BuildOp :=
  [.addCity "Metropolis", .addCity "Gotham", .addCity "Star City",
    .addCity "Central City", .addCity "Coast City",
    .addRoad "Metropolis" "Gotham" 50, .addRoad "Metropolis" "Star City" 120,
    .addRoad "Gotham" "Central City" 80, .addRoad "Star City" "Central City" 60,
    .addRoad "Central City" "Coast City" 40]

/-- The road network of `demonstrateRoadNetworkAnalysis`. -/
def demoNetwork : CityNetwork := build demoOps

/-- The connection list of the city at position `i` (empty when there is no such city). -/
def connectionsOf (cities : List City) (i : Nat) : List RoadConnection :=
  match cities[i]? with
  | some c => c.connections
  | none => []

/-- The name of the city at position `i`. -/
def nameOf (cities : List City) (i : Nat) : Option String :=
  (cities[i]?).map City.name

/-- Some road entry of city `a` leads to city `b`. -/
def Road (cities : List City) (a b : Nat) : Prop :=
  ∃ road ∈ connectionsOf cities a, road.destination = b

/-- City `j` is connected to city `i` by some sequence of roads (possibly empty). -/
def Connected (cities : List City) (i j : Nat) : Prop :=
  Relation.ReflTransGen (Road cities) i j

/-- A sequence of road entries leads from city `i` to city `j`, with total length `total`. -/
inductive Route (cities : List City) : Nat → Nat → Nat → Prop where
  | stay (i : Nat) : Route cities i i 0
  | step {i j total : Nat} (road : RoadConnection) :
      road ∈ connectionsOf cities i → Route cities road.destination j total →
      Route cities i j (road.length + total)

/-- The demo network with the short city names M, G, S, C, Co. -/
def shortNetwork : CityNetwork :=
  build [.addCity "M", .addCity "G", .addCity "S", .addCity "C", .addCity "Co",
    .addRoad "M" "G" 50, .addRoad "M" "S" 120, .addRoad "G" "C" 80, .addRoad "S" "C" 60,
    .addRoad "C" "Co" 40]

/-- Five cities and seven roads without parallel roads or self-loops, total length 38,
on which the heap order is disturbed by a distance lowered while its city is queued. -/
def staleHeapOps : List BuildOp :=
  [.addCity "A", .addCity "B", .addCity "C", .addCity "D", .addCity "E",
    .addRoad "D" "B" 3, .addRoad "C" "D" 3, .addRoad "C" "A" 9, .addRoad "A" "E" 1,
    .addRoad "E" "D" 7, .addRoad "B" "E" 12, .addRoad "E" "C" 3]

/-- The network of `staleHeapOps`. -/
def staleHeapNetwork : CityNetwork := build staleHeapOps

/-- Three cities in a row with two roads of length `2^31 - 1` (total `2^32 - 2`). -/
def wrapOps : List BuildOp :=
  [.addCity "A", .addCity "B", .addCity "C",
    .addRoad "A" "B" 2147483647, .addRoad "B" "C" 2147483647]

/-- The network of `wrapOps`. -/
def wrapNetwork : CityNetwork := build wrapOps

/-- Two cities joined by one road of length `2^32 - 1`. -/
def sentinelOps : List BuildOp :=
  [.addCity "A", .addCity "B", .addRoad "A" "B" 4294967295]

/-- The network of `sentinelOps`. -/
def sentinelNetwork : CityNetwork := build sentinelOps

/-- Three cities, the third carrying the name of the first, and one road between A
and B. -/
def shadowedOps : List BuildOp :=
  [.addCity "A", .addCity "B", .addCity "A", .addRoad "A" "B" 5]

/-- Invariant of the loop of `findReachableCities`, for the cities already taken from the
queue (`visited`, in order) and the queue: search data aside the cities are the initial
ones, no city occurs twice, the discovered cities are exactly the visited and queued
ones, and all of them are connected to `start`. -/
structure ReachInv (cities0 : List City) (start : Nat) (cities : List City)
    (visited queue : List Nat) : Prop where
  frame : cities.map City.resetSearchInfo = cities0.map City.resetSearchInfo
  nodup : (visited ++ queue).Nodup
  disc : ∀ i, i < cities.length → (discoveredOf cities i = true ↔ i ∈ visited ++ queue)
  inRange : ∀ i ∈ visited ++ queue, i < cities.length
  conn : ∀ i ∈ visited ++ queue, Connected cities0 start i
  hasStart : start ∈ visited ++ queue

/-- All roads of the visited cities lead to visited or queued cities. -/
def RoadsClosed (cities0 : List City) (visited queue : List Nat) : Prop :=
  ∀ i ∈ visited, ∀ road ∈ connectionsOf cities0 i,
    road.destination < cities0.length → road.destination ∈ visited ++ queue

/-- Every road entry leads to a city that `findCity` returns for some name; such a city
is in particular a city of the network and the first one carrying its name. -/
def WellFormed (cities : List City) : Prop :=
  ∀ i, ∀ road ∈ connectionsOf cities i, ∃ name, findCityIn cities name = some road.destination

/-- Reads `city->searchInfo.finalized` through a pointer. -/
def finalizedOf (cities : List City) (i : Nat) : Bool :=
  match cities[i]? with
  | some c => c.searchInfo.finalized
  | none => false

/-- The number of road entries of the cities not yet finalized. -/
def pendingCount (cities : List City) : Nat :=
  (cities.map (fun c => if c.searchInfo.finalized then 0 else c.connections.length)).sum

/-- A road as `addRoad` adds it: the two cities it joins and its length. -/
structure RoadRecord where
  source : Nat
  target : Nat
  length : Nat
  deriving Repr

/-- One construction step, on the network together with the list of roads added so far:
`addRoad` adds a road exactly when both names are found. -/
def BuildOp.applyTracked (s : CityNetwork × List RoadRecord) :
    BuildOp → CityNetwork × List RoadRecord
  | .addCity name => (s.1.addCity name, s.2)
  | .addRoad a b w =>
    match s.1.findCity a, s.1.findCity b with
    | some i, some j => (s.1.addRoad a b w, s.2 ++ [⟨i, j, w % 4294967296⟩])
    | _, _ => (s.1.addRoad a b w, s.2)

/-- The roads of the network built by a sequence of construction steps. -/
def roadsOf (ops : List BuildOp) : List RoadRecord :=
  (ops.foldl BuildOp.applyTracked (CityNetwork.empty, [])).2

/-- The sum of the lengths of a list of roads, every road counted once. -/
def totalRoadLength (roads : List RoadRecord) : Nat :=
  (roads.map RoadRecord.length).sum

/-- The road entries of all cities, each taken as a road of its own. -/
def entriesOf (cities : List City) : List RoadRecord :=
  (List.range cities.length).flatMap (fun i =>
    (connectionsOf cities i).map (fun e => ⟨i, e.destination, e.length⟩))

/-- Every road entry of a city belongs to a road of the list, in one direction or the
other. -/
def RoadsCover (roads : List RoadRecord) (cities : List City) : Prop :=
  ∀ i, ∀ e ∈ connectionsOf cities i,
    (⟨i, e.destination, e.length⟩ : RoadRecord) ∈ roads ∨
    (⟨e.destination, i, e.length⟩ : RoadRecord) ∈ roads

/-- The total length of the roads both of whose ends have a distance other than
"infinity". -/
def reachedLength (roads : List RoadRecord) (cities : List City) : Nat :=
  (roads.map (fun r =>
    if distanceOf cities r.source ≠ UINT_MAX ∧ distanceOf cities r.target ≠ UINT_MAX
    then r.length else 0)).sum

/-- Invariant of the loop of `calculateShortestPaths`: search data aside the cities are
the initial ones; the heap holds cities with a distance below "infinity"; every city
with such a distance is connected to `start`, is in the heap unless finalized, and its
distance is at most the total length of the roads between cities that have such a
distance. -/
structure PathInv (cities0 : List City) (roads : List RoadRecord) (start : Nat)
    (cities : List City) (pq : List Nat) : Prop where
  frame : cities.map City.resetSearchInfo = cities0.map City.resetSearchInfo
  leMax : ∀ i, distanceOf cities i ≤ UINT_MAX
  inRange : ∀ i ∈ pq, i < cities.length
  queuedFinite : ∀ i ∈ pq, distanceOf cities i ≠ UINT_MAX
  startFinite : start < cities.length ∧ distanceOf cities start ≠ UINT_MAX
  conn : ∀ i, i < cities.length → distanceOf cities i ≠ UINT_MAX → Connected cities0 start i
  queued : ∀ i, i < cities.length → distanceOf cities i ≠ UINT_MAX →
    finalizedOf cities i = false → i ∈ pq
  bound : ∀ i, distanceOf cities i ≠ UINT_MAX → distanceOf cities i ≤ reachedLength roads cities

/-- Every road entry of a finalized city leads to a city with a distance below
"infinity". -/
def Relaxed (cities0 cities : List City) : Prop :=
  ∀ i, i < cities.length → finalizedOf cities i = true →
    ∀ road ∈ connectionsOf cities0 i, distanceOf cities road.destination ≠ UINT_MAX

/-- The sum of the `distance` fields of all cities. -/
def distanceSum (cities : List City) : Nat :=
  (cities.map (fun c => c.searchInfo.distance)).sum

mutual
/-- The symbols of all nodes of a tree, one entry per node. -/
def allSymbols : DistrictNode → List Char
  | .mk s cs => s :: allSymbolsList cs
/-- The symbols of all nodes of a forest, one entry per node. -/
def allSymbolsList : List DistrictNode → List Char
  | [] => []
  | c :: cs => allSymbols c ++ allSymbolsList cs
end

/-- The states (cities and heap vector) at the head of every iteration of the loop of
`calculateShortestPaths`, the state in which the loop ends included.  The recursion is
that of `dijkstraLoop`. -/
def dijkstraTrace : Nat → List City → List Nat → List (List City × List Nat)
  | _, cities, [] => [(cities, [])]
  | 0, cities, current :: rest => [(cities, current :: rest)]
  | fuel + 1, cities, current :: rest =>
    (cities, current :: rest) ::
      match cities[current]? with
      | none => []
      | some c =>
        if c.searchInfo.finalized then
          dijkstraTrace fuel cities (pqPop cities (current :: rest))
        else
          dijkstraTrace fuel
            (relaxRoads current c.connections
              (setFinalized cities current, pqPop cities (current :: rest))).1
            (relaxRoads current c.connections
              (setFinalized cities current, pqPop cities (current :: rest))).2

/-- The states of the loop of `calculateShortestPaths` for a start name. -/
def CityNetwork.shortestPathsTrace (net : CityNetwork) (startCity : String) :
    List (List City × List Nat) :=
  match net.resetSearchData.findCity startCity with
  | none => []
  | some start =>
    dijkstraTrace (connectionCount net.cities + 1)
      (setStartDistance net.resetSearchData.cities start)
      (pqPush (setStartDistance net.resetSearchData.cities start) [] start)

/-- The pushes of the relaxation loop, in order: for every road whose candidate distance
is below the distance of its destination, the destination and the candidate.  The
recursion is that of `relaxRoads`. -/
def relaxPushes (current : Nat) : List RoadConnection → List City → List (Nat × Nat)
  | [], _ => []
  | road :: rest, cities =>
    if (distanceOf cities current + road.length) % 4294967296
        < distanceOf cities road.destination then
      (road.destination, (distanceOf cities current + road.length) % 4294967296) ::
        relaxPushes current rest
          (setDistance cities road.destination
            ((distanceOf cities current + road.length) % 4294967296) current)
    else relaxPushes current rest cities

/-- What the iteration starting in a state does: the city popped, whether it is skipped
(already finalized), its distance when popped, and the pushes of its relaxation. -/
def iterationOf (s : List City × List Nat) : Option (Nat × Bool × Nat × List (Nat × Nat)) :=
  match s.2 with
  | [] => none
  | current :: _ =>
    match s.1[current]? with
    | none => none
    | some c =>
      some (current, c.searchInfo.finalized, c.searchInfo.distance,
        if c.searchInfo.finalized then []
        else relaxPushes current c.connections (setFinalized s.1 current))

/-- The heap vector, the distances and the finalized flags of a state. -/
def stateView (s : List City × List Nat) : List Nat × List Nat × List Bool :=
  (s.2, s.1.map (fun c => c.searchInfo.distance), s.1.map (fun c => c.searchInfo.finalized))

/-- The name, distance and predecessor of every city. -/
def searchView (cities : List City) : List (String × Nat × Option Nat) :=
  cities.map (fun c => (c.name, c.searchInfo.distance, c.searchInfo.previous))

/-- Three cities and the roads of the lazy-deletion example: A-B 10, A-C 1, C-B 1. -/
def lazyOps : List BuildOp :=
  [.addCity "A", .addCity "B", .addCity "C",
    .addRoad "A" "B" 10, .addRoad "A" "C" 1, .addRoad "C" "B" 1]

/-- A sequence of `n` road entries leads from city `i` to city `j`. -/
inductive HopRoute (cities : List City) (i : Nat) : Nat → Nat → Prop where
  | start : HopRoute cities i i 0
  | step {j n : Nat} (road : RoadConnection) :
      HopRoute cities i j n → road ∈ connectionsOf cities j →
      HopRoute cities i road.destination (n + 1)

/-- The hop distance of city `j` from city `i` is `d`: some sequence of `d` roads leads
from `i` to `j` and no sequence of fewer roads does. -/
def IsHopDistance (cities : List City) (i j d : Nat) : Prop :=
  HopRoute cities i j d ∧ ∀ n, HopRoute cities i j n → d ≤ n

/-- The destinations of a connection list that are not among the cities `seen`, in the
order of the list, each taken at its first occurrence. -/
def firstNew : List Nat → List RoadConnection → List Nat
  | _, [] => []
  | seen, road :: rest =>
    if road.destination ∈ seen then firstNew seen rest
    else road.destination :: firstNew (seen ++ [road.destination]) rest

/-- Invariant of the loop of `findReachableCities` for a level `lev` of every discovered
city: the level is the length of some route from `start`, levels do not decrease along
the visited cities followed by the queue, no city is more than one level above the front
of the queue, and a road from a visited city leads at most one level up. -/
structure LevelInv (cities0 : List City) (start : Nat) (lev : Nat → Nat)
    (visited queue : List Nat) : Prop where
  route : ∀ i ∈ visited ++ queue, HopRoute cities0 start i (lev i)
  sorted : (visited ++ queue).Pairwise (fun a b => lev a ≤ lev b)
  front : ∀ f ∈ queue.head?, ∀ x ∈ visited ++ queue, lev x ≤ lev f + 1
  roads : ∀ y ∈ visited, ∀ road ∈ connectionsOf cities0 y,
    road.destination < cities0.length → lev road.destination ≤ lev y + 1
  startLevel : lev start = 0

/-- Invariant of the loop of `findReachableCities` for the lists `news` of cities first
discovered from each visited city: the visited cities followed by the queue are the
start followed by these lists, and the list of the `k`-th visited city holds the
destinations of its connection list not discovered before, in connection-list order. -/
structure NewsInv (cities0 : List City) (start : Nat) (news : List (List Nat))
    (visited queue : List Nat) : Prop where
  order : visited ++ queue = start :: news.flatten
  length : news.length = visited.length
  fresh : ∀ k u, visited[k]? = some u →
    news[k]? = some (firstNew (start :: (news.take k).flatten) (connectionsOf cities0 u))

/-! ## District tree traversals -/

theorem pushReversed_eq (cs st : List DistrictNode) : pushReversed cs st = cs ++ st := by
  unfold pushReversed
  induction cs generalizing st with
  | nil => rfl
  | cons c cs ih =>
    rw [List.reverse_cons, List.foldl_append, ih]
    rfl

theorem pushAll_eq (cs q : List DistrictNode) : pushAll cs q = q ++ cs := by
  unfold pushAll
  induction cs generalizing q with
  | nil => simp
  | cons c cs ih => rw [List.foldl_cons, ih]; simp

theorem sizeList_append (xs ys : List DistrictNode) :
    DistrictNode.sizeList (xs ++ ys) = DistrictNode.sizeList xs + DistrictNode.sizeList ys := by
  induction xs with
  | nil => simp [DistrictNode.sizeList]
  | cons x xs ih => simp [DistrictNode.sizeList, ih, Nat.add_assoc]

theorem preorderUpperList_append (xs ys : List DistrictNode) :
    preorderUpperList (xs ++ ys) = preorderUpperList xs ++ preorderUpperList ys := by
  induction xs with
  | nil => simp [preorderUpperList]
  | cons x xs ih => simp [preorderUpperList, ih]

theorem dfsLoop_eq (fuel : Nat) : ∀ (nodeStack : List DistrictNode) (result : List Char),
    DistrictNode.sizeList nodeStack ≤ fuel →
    dfsLoop fuel nodeStack result = some (result ++ preorderUpperList nodeStack) := by
  induction fuel with
  | zero =>
    intro st result h
    cases st with
    | nil => simp [dfsLoop, preorderUpperList]
    | cons c cs =>
      cases c with
      | mk s ds => simp only [DistrictNode.sizeList, DistrictNode.size] at h; omega
  | succ fuel ih =>
    intro st result h
    cases st with
    | nil => simp [dfsLoop, preorderUpperList]
    | cons c cs =>
      cases c with
      | mk s ds =>
        simp only [DistrictNode.sizeList, DistrictNode.size] at h
        rw [dfsLoop, pushReversed_eq, ih]
        · simp only [DistrictNode.symbol, DistrictNode.subdistricts, preorderUpperList,
            preorderUpper, preorderUpperList_append]
          split <;> simp
        · simp only [DistrictNode.subdistricts, sizeList_append]; omega


theorem bfsLoop_level (xs : List DistrictNode) : ∀ (fuel : Nat) (ys : List DistrictNode)
    (result : List Char),
    bfsLoop (fuel + xs.length) (xs ++ ys) result =
      bfsLoop fuel (ys ++ xs.flatMap DistrictNode.subdistricts)
        (result ++ (xs.map DistrictNode.symbol).filter isupper) := by
  induction xs with
  | nil => intro fuel ys result; simp
  | cons x xs ih =>
    intro fuel ys result
    have h1 : fuel + (x :: xs).length = (fuel + xs.length) + 1 := by simp; omega
    rw [h1, List.cons_append, bfsLoop, pushAll_eq, List.append_assoc, ih]
    congr 1
    · simp
    · by_cases hx : isupper x.symbol <;> simp [hx, List.filter_cons]

theorem nodesAtDepthList_zero (q : List DistrictNode) : nodesAtDepthList 0 q = q := by
  induction q with
  | nil => simp [nodesAtDepthList]
  | cons c cs ih => simp [nodesAtDepthList, nodesAtDepth, ih]

theorem nodesAtDepthList_append (d : Nat) (xs ys : List DistrictNode) :
    nodesAtDepthList d (xs ++ ys) = nodesAtDepthList d xs ++ nodesAtDepthList d ys := by
  induction xs with
  | nil => simp [nodesAtDepthList]
  | cons x xs ih => simp [nodesAtDepthList, ih]

theorem nodesAtDepthList_succ (d : Nat) (q : List DistrictNode) :
    nodesAtDepthList (d + 1) q = nodesAtDepthList d (q.flatMap DistrictNode.subdistricts) := by
  induction q with
  | nil => simp [nodesAtDepthList]
  | cons c cs ih =>
    cases c with
    | mk s ds =>
      simp [nodesAtDepthList, nodesAtDepth, ih, nodesAtDepthList_append,
        DistrictNode.subdistricts]

theorem sizeList_children (q : List DistrictNode) :
    DistrictNode.sizeList q =
      q.length + DistrictNode.sizeList (q.flatMap DistrictNode.subdistricts) := by
  induction q with
  | nil => simp [DistrictNode.sizeList]
  | cons c cs ih =>
    cases c with
    | mk s ds =>
      simp [DistrictNode.sizeList, DistrictNode.size, ih, sizeList_append,
        DistrictNode.subdistricts]
      omega

theorem heightList_append (xs ys : List DistrictNode) :
    DistrictNode.heightList (xs ++ ys) =
      max (DistrictNode.heightList xs) (DistrictNode.heightList ys) := by
  induction xs with
  | nil => simp [DistrictNode.heightList]
  | cons x xs ih => simp [DistrictNode.heightList, ih, max_assoc]

theorem heightList_children (q : List DistrictNode) :
    DistrictNode.heightList (q.flatMap DistrictNode.subdistricts) =
      DistrictNode.heightList q - 1 := by
  induction q with
  | nil => simp [DistrictNode.heightList]
  | cons c cs ih =>
    cases c with
    | mk s ds =>
      simp only [List.flatMap_cons, heightList_append, ih, DistrictNode.heightList,
        DistrictNode.height, DistrictNode.subdistricts]
      omega

theorem heightList_eq_zero (q : List DistrictNode) (h : DistrictNode.heightList q = 0) :
    q = [] := by
  cases q with
  | nil => rfl
  | cons c cs =>
    cases c with
    | mk s ds => simp only [DistrictNode.heightList, DistrictNode.height] at h; omega

/-- The uppercase symbols of the first `h` levels of a forest, level by level. -/
theorem bfsLoop_eq (h : Nat) : ∀ (fuel : Nat) (q : List DistrictNode) (result : List Char),
    DistrictNode.heightList q ≤ h → DistrictNode.sizeList q ≤ fuel →
    bfsLoop fuel q result = some (result ++ (List.range h).flatMap
        (fun d => ((nodesAtDepthList d q).map DistrictNode.symbol).filter isupper)) := by
  induction h with
  | zero =>
    intro fuel q result hh _
    have := heightList_eq_zero q (by omega)
    subst this
    cases fuel <;> simp [bfsLoop]
  | succ h ih =>
    intro fuel q result hh hs
    have hsz := sizeList_children q
    obtain ⟨f, rfl⟩ : ∃ f, fuel = f + q.length := ⟨fuel - q.length, by omega⟩
    have := bfsLoop_level q f [] result
    rw [List.append_nil, List.nil_append] at this
    rw [this, ih f _ _ (by rw [heightList_children]; omega) (by omega)]
    simp only [List.range_succ_eq_map, List.flatMap_cons, nodesAtDepthList_zero,
      List.flatMap_map, List.append_assoc, nodesAtDepthList_succ]

theorem nodesAtDepthList_single (d : Nat) (n : DistrictNode) :
    nodesAtDepthList d [n] = nodesAtDepth d n := by
  simp [nodesAtDepthList]


/-- C8: for every district tree `findUppercaseDFS` returns the uppercase symbols in the
order of the recursive left-to-right pre-order walk, for an absent root it returns
the empty list, and for the demo tree it returns C, N, A, B, S, W. -/
theorem findUppercaseDFS_preorder :
    (∀ root : DistrictNode,
      (DistrictTree.mk (some root)).findUppercaseDFS = some (preorderUpper root)) ∧
    (DistrictTree.mk none).findUppercaseDFS = some [] ∧
    createCityDistrictTree.findUppercaseDFS = some ['C', 'N', 'A', 'B', 'S', 'W'] := by
  refine ⟨?_, rfl, by decide⟩
  intro root
  have h := dfsLoop_eq root.size [root] [] (by simp [DistrictNode.sizeList])
  simpa [DistrictTree.findUppercaseDFS, preorderUpperList] using h

/-- C9: for every district tree `findUppercaseBFS` returns the uppercase symbols level by
level (depth 0 first, then depth 1, and so on), each level from left to right; for an
absent root it returns the empty list, and for the demo tree it returns
C, N, S, A, B, W. -/
theorem findUppercaseBFS_levelOrder :
    (∀ root : DistrictNode,
      (DistrictTree.mk (some root)).findUppercaseBFS = some (levelOrderUpper root)) ∧
    (DistrictTree.mk none).findUppercaseBFS = some [] ∧
    createCityDistrictTree.findUppercaseBFS = some ['C', 'N', 'S', 'A', 'B', 'W'] := by
  refine ⟨?_, rfl, by decide⟩
  intro root
  have h := bfsLoop_eq root.height root.size [root] []
    (by simp [DistrictNode.heightList]) (by simp [DistrictNode.sizeList])
  simpa [DistrictTree.findUppercaseBFS, levelOrderUpper, upperAtDepth,
    nodesAtDepthList_single] using h

/-! ## Network construction and simple queries -/

theorem findCityIn_lt : ∀ (cities : List City) (name : String) (i : Nat),
    findCityIn cities name = some i → i < cities.length := by
  intro cities
  induction cities with
  | nil => intro name i h; simp [findCityIn] at h
  | cons c cs ih =>
    intro name i h
    simp only [findCityIn] at h
    split at h
    · simp at h; subst h; simp
    · cases hf : findCityIn cs name with
      | none => simp [hf] at h
      | some k =>
        simp [hf] at h
        subst h
        have := ih name k hf
        simp; omega

theorem findCityIn_congr : ∀ (xs ys : List City), xs.map City.name = ys.map City.name →
    ∀ name, findCityIn xs name = findCityIn ys name := by
  intro xs
  induction xs with
  | nil => intro ys h name; cases ys with
    | nil => rfl
    | cons y ys => simp at h
  | cons x xs ih =>
    intro ys h name
    cases ys with
    | nil => simp at h
    | cons y ys =>
      simp only [List.map_cons, List.cons.injEq] at h
      simp only [findCityIn, h.1, ih ys h.2 name]

theorem map_name_reset (cities : List City) :
    (cities.map City.resetSearchInfo).map City.name = cities.map City.name := by
  simp [List.map_map, Function.comp_def, City.resetSearchInfo]

theorem findCity_resetSearchData (net : CityNetwork) (name : String) :
    net.resetSearchData.findCity name = net.findCity name :=
  findCityIn_congr _ _ (map_name_reset net.cities) name

/-- C5: when `findCity` does not find the name, `findReachableCities` returns the empty
sequence and `calculateShortestPaths` returns the empty map; both return normally,
leaving the network with reset search data. -/
theorem query_unknown_start (net : CityNetwork) (name : String)
    (h : net.findCity name = none) :
    net.findReachableCities name = some ([], net.resetSearchData) ∧
    net.calculateShortestPaths name = some ([], net.resetSearchData) := by
  have h' := findCity_resetSearchData net name
  rw [h] at h'
  simp [CityNetwork.findReachableCities, CityNetwork.calculateShortestPaths, h']

theorem query_unknown_start_witness :
    demoNetwork.findReachableCities "Atlantis" = some ([], demoNetwork.resetSearchData) ∧
    demoNetwork.calculateShortestPaths "Atlantis" = some ([], demoNetwork.resetSearchData) :=
  query_unknown_start demoNetwork "Atlantis" (by decide)

/-- C6: `addRoad` with an endpoint name that names no city leaves the network unchanged:
the same cities in the same order with the same connection lists, hence the same total
number of road entries. -/
theorem addRoad_unknown_city (net : CityNetwork) (fromName toName : String) (length : Nat)
    (h : net.findCity fromName = none ∨ net.findCity toName = none) :
    net.addRoad fromName toName length = net ∧
    (∀ i, connectionsOf (net.addRoad fromName toName length).cities i
      = connectionsOf net.cities i) ∧
    connectionCount (net.addRoad fromName toName length).cities
      = connectionCount net.cities := by
  have : net.addRoad fromName toName length = net := by
    unfold CityNetwork.addRoad
    rcases h with h | h
    · rw [h]
    · rw [h]; cases net.findCity fromName <;> rfl
  rw [this]; simp

theorem addRoad_unknown_city_witness :
    demoNetwork.addRoad "Gotham" "Missing" 10 = demoNetwork ∧
    (∀ i, connectionsOf (demoNetwork.addRoad "Gotham" "Missing" 10).cities i
      = connectionsOf demoNetwork.cities i) ∧
    connectionCount (demoNetwork.addRoad "Gotham" "Missing" 10).cities
      = connectionCount demoNetwork.cities :=
  addRoad_unknown_city demoNetwork "Gotham" "Missing" 10 (Or.inr (by decide))

theorem connectionsOf_emplace (cities : List City) (i d w k : Nat) (hi : i < cities.length) :
    connectionsOf (emplaceConnection cities i d w) k =
      if k = i then connectionsOf cities i ++ [⟨d, w⟩] else connectionsOf cities k := by
  unfold connectionsOf emplaceConnection
  rw [List.getElem?_modify]
  by_cases hk : k = i
  · subst hk
    simp [List.getElem?_eq_getElem hi]
  · have : ¬ i = k := fun h => hk h.symm
    simp only [this, hk, if_false]
    cases cities[k]? <;> simp

theorem map_name_emplace (cities : List City) (i d w : Nat) :
    (emplaceConnection cities i d w).map City.name = cities.map City.name := by
  unfold emplaceConnection
  apply List.ext_getElem?
  intro k
  simp only [List.getElem?_map, List.getElem?_modify]
  cases cities[k]? <;> simp
  split <;> rfl

/-- C7: when `A` names city `i` and `B` names city `j`, `addRoad(A, B, w)` keeps the city
names (so `A` and `B` still name `i` and `j`), appends the entry `(j, w)` to the list of
`i` and the entry `(i, w)` to the list of `j` (both to the same list when `i = j`), and
leaves every other connection list unchanged. -/
theorem addRoad_appends (net : CityNetwork) (A B : String) (w i j : Nat)
    (hA : net.findCity A = some i) (hB : net.findCity B = some j) (hw : w < 4294967296) :
    (net.addRoad A B w).cities.map City.name = net.cities.map City.name ∧
    (net.addRoad A B w).findCity A = some i ∧
    (net.addRoad A B w).findCity B = some j ∧
    (i ≠ j → connectionsOf (net.addRoad A B w).cities i
        = connectionsOf net.cities i ++ [⟨j, w⟩] ∧
      connectionsOf (net.addRoad A B w).cities j
        = connectionsOf net.cities j ++ [⟨i, w⟩]) ∧
    (i = j → connectionsOf (net.addRoad A B w).cities i
        = connectionsOf net.cities i ++ [⟨i, w⟩, ⟨i, w⟩]) ∧
    (∀ k, k ≠ i → k ≠ j →
      connectionsOf (net.addRoad A B w).cities k = connectionsOf net.cities k) := by
  have hi := findCityIn_lt _ _ _ hA
  have hj := findCityIn_lt _ _ _ hB
  have hmod : w % 4294967296 = w := Nat.mod_eq_of_lt hw
  have hcities : (net.addRoad A B w).cities =
      emplaceConnection (emplaceConnection net.cities i j w) j i w := by
    simp [CityNetwork.addRoad, hA, hB, hmod]
  have hj' : j < (emplaceConnection net.cities i j w).length := by
    simpa [emplaceConnection] using hj
  have hnames : (net.addRoad A B w).cities.map City.name = net.cities.map City.name := by
    rw [hcities, map_name_emplace, map_name_emplace]
  have hfind : ∀ n, (net.addRoad A B w).findCity n = net.findCity n :=
    fun n => findCityIn_congr _ _ hnames n
  refine ⟨hnames, by rw [hfind, hA], by rw [hfind, hB], ?_, ?_, ?_⟩
  · intro hij
    rw [hcities, connectionsOf_emplace _ _ _ _ _ hj', connectionsOf_emplace _ _ _ _ _ hj',
      connectionsOf_emplace _ _ _ _ _ hi, connectionsOf_emplace _ _ _ _ _ hi]
    simp [hij, Ne.symm hij]
  · intro hij
    subst hij
    rw [hcities, connectionsOf_emplace _ _ _ _ _ hj', connectionsOf_emplace _ _ _ _ _ hi]
    simp
  · intro k hki hkj
    rw [hcities, connectionsOf_emplace _ _ _ _ _ hj', if_neg hkj,
      connectionsOf_emplace _ _ _ _ _ hi, if_neg hki]

theorem addRoad_appends_witness :
    (demoNetwork.addRoad "Gotham" "Coast City" 7).cities.map City.name
      = demoNetwork.cities.map City.name ∧
    (demoNetwork.addRoad "Gotham" "Coast City" 7).findCity "Gotham" = some 1 ∧
    (demoNetwork.addRoad "Gotham" "Coast City" 7).findCity "Coast City" = some 4 ∧
    (1 ≠ 4 → connectionsOf (demoNetwork.addRoad "Gotham" "Coast City" 7).cities 1
        = connectionsOf demoNetwork.cities 1 ++ [⟨4, 7⟩] ∧
      connectionsOf (demoNetwork.addRoad "Gotham" "Coast City" 7).cities 4
        = connectionsOf demoNetwork.cities 4 ++ [⟨1, 7⟩]) ∧
    (1 = 4 → connectionsOf (demoNetwork.addRoad "Gotham" "Coast City" 7).cities 1
        = connectionsOf demoNetwork.cities 1 ++ [⟨1, 7⟩, ⟨1, 7⟩]) ∧
    (∀ k, k ≠ 1 → k ≠ 4 →
      connectionsOf (demoNetwork.addRoad "Gotham" "Coast City" 7).cities k
        = connectionsOf demoNetwork.cities k) :=
  addRoad_appends demoNetwork "Gotham" "Coast City" 7 1 4 (by decide) (by decide)
    (by decide)

/-- C10: on the demo network (five cities, roads of length 50, 120, 80, 60, 40)
`calculateShortestPaths` from Metropolis returns exactly the map
Metropolis 0, Gotham 50, Star City 120, Central City 130, Coast City 170 (listed in key
order); the same holds with the short names M, G, S, C, Co. -/
theorem demo_shortest_paths :
    (demoNetwork.calculateShortestPaths "Metropolis").map Prod.fst =
      some [("Central City", 130), ("Coast City", 170), ("Gotham", 50), ("Metropolis", 0),
        ("Star City", 120)] ∧
    (shortNetwork.calculateShortestPaths "M").map Prod.fst =
      some [("C", 130), ("Co", 170), ("G", 50), ("M", 0), ("S", 120)] := by
  constructor <;> decide


/-! ## Search data never changes the graph -/

theorem modify_map_reset (cities : List City) (f : City → City) (i : Nat)
    (hf : ∀ c, (f c).resetSearchInfo = c.resetSearchInfo) :
    (cities.modify f i).map City.resetSearchInfo = cities.map City.resetSearchInfo := by
  apply List.ext_getElem?
  intro k
  simp only [List.getElem?_map, List.getElem?_modify]
  cases cities[k]? with
  | none => rfl
  | some c =>
    by_cases h : i = k <;> simp [h, hf]

theorem setDiscovered_reset (cities : List City) (i : Nat) :
    (setDiscovered cities i).map City.resetSearchInfo = cities.map City.resetSearchInfo :=
  modify_map_reset _ _ _ (fun _ => rfl)

theorem setDistance_reset (cities : List City) (d v cur : Nat) :
    (setDistance cities d v cur).map City.resetSearchInfo = cities.map City.resetSearchInfo :=
  modify_map_reset _ _ _ (fun _ => rfl)

theorem setFinalized_reset (cities : List City) (i : Nat) :
    (setFinalized cities i).map City.resetSearchInfo = cities.map City.resetSearchInfo :=
  modify_map_reset _ _ _ (fun _ => rfl)

theorem setStartDistance_reset (cities : List City) (i : Nat) :
    (setStartDistance cities i).map City.resetSearchInfo = cities.map City.resetSearchInfo :=
  modify_map_reset _ _ _ (fun _ => rfl)

theorem reset_idem (cities : List City) :
    (cities.map City.resetSearchInfo).map City.resetSearchInfo
      = cities.map City.resetSearchInfo := by
  simp [List.map_map, Function.comp_def, City.resetSearchInfo, SearchInfo.reset]

/-- Cities with the same reset form have the same length. -/
theorem length_of_reset_eq {xs ys : List City}
    (h : xs.map City.resetSearchInfo = ys.map City.resetSearchInfo) :
    xs.length = ys.length := by
  have := congrArg List.length h
  simpa using this

theorem getElem?_of_reset_eq {xs ys : List City}
    (h : xs.map City.resetSearchInfo = ys.map City.resetSearchInfo) (i : Nat) :
    (xs[i]?).map City.resetSearchInfo = (ys[i]?).map City.resetSearchInfo := by
  have := congrArg (fun l => l[i]?) h
  simpa [List.getElem?_map] using this

theorem connectionsOf_of_reset_eq {xs ys : List City}
    (h : xs.map City.resetSearchInfo = ys.map City.resetSearchInfo) (i : Nat) :
    connectionsOf xs i = connectionsOf ys i := by
  have := getElem?_of_reset_eq h i
  unfold connectionsOf
  cases hx : xs[i]? <;> cases hy : ys[i]? <;> simp [hx, hy] at this ⊢
  have h2 := congrArg City.connections this
  exact h2

theorem nameOf_of_reset_eq {xs ys : List City}
    (h : xs.map City.resetSearchInfo = ys.map City.resetSearchInfo) (i : Nat) :
    nameOf xs i = nameOf ys i := by
  have := getElem?_of_reset_eq h i
  unfold nameOf
  cases hx : xs[i]? <;> cases hy : ys[i]? <;> simp [hx, hy] at this ⊢
  have h2 := congrArg City.name this
  exact h2

theorem discoveredOf_setDiscovered (cities : List City) (d i : Nat) :
    discoveredOf (setDiscovered cities d) i =
      if i = d then true else discoveredOf cities i := by
  unfold discoveredOf setDiscovered
  rw [List.getElem?_modify]
  by_cases h : i = d
  · subst h; cases cities[i]? <;> simp
  · have : ¬ d = i := fun e => h e.symm
    cases cities[i]? <;> simp [h, this]

theorem discoveredOf_lt {cities : List City} {i : Nat} (h : discoveredOf cities i = false) :
    i < cities.length := by
  unfold discoveredOf at h
  by_contra hn
  rw [List.getElem?_eq_none (by omega)] at h
  simp at h


/-! ## Reachability query -/

theorem nodup_bounded_length (l : List Nat) (n : Nat) (hn : l.Nodup)
    (h : ∀ x ∈ l, x < n) : l.length ≤ n := by
  have hsub : l ⊆ List.range n := fun x hx => List.mem_range.mpr (h x hx)
  have := (List.subperm_of_subset hn hsub).length_le
  simpa using this

theorem visitRoads_inv (cities0 : List City) (start : Nat) (V : List Nat) :
    ∀ (roads : List RoadConnection) (cities : List City) (Q : List Nat),
    ReachInv cities0 start cities V Q →
    (∀ road ∈ roads, Connected cities0 start road.destination) →
    ∃ ext, (visitRoads roads (cities, Q)).2 = Q ++ ext ∧
      ReachInv cities0 start (visitRoads roads (cities, Q)).1 V (Q ++ ext) ∧
      ∀ road ∈ roads, road.destination < cities0.length →
        road.destination ∈ V ++ (Q ++ ext) := by
  intro roads
  induction roads with
  | nil =>
    intro cities Q inv _
    exact ⟨[], by simp [visitRoads], by simpa [visitRoads] using inv, by simp⟩
  | cons road rest ih =>
    intro cities Q inv hconn
    have hlen : cities.length = cities0.length := length_of_reset_eq inv.frame
    by_cases hd : discoveredOf cities road.destination = false
    · have hlt := discoveredOf_lt hd
      have hnot : road.destination ∉ V ++ Q := by
        intro hmem
        have := (inv.disc _ hlt).mpr hmem
        rw [hd] at this; exact Bool.noConfusion this
      have inv1 : ReachInv cities0 start (setDiscovered cities road.destination) V
          (Q ++ [road.destination]) := by
        refine ⟨?_, ?_, ?_, ?_, ?_, ?_⟩
        · rw [setDiscovered_reset]; exact inv.frame
        · rw [← List.append_assoc]
          exact List.Nodup.append inv.nodup (List.nodup_singleton _)
            (by simpa [List.disjoint_singleton] using hnot)
        · intro i hi
          rw [discoveredOf_setDiscovered]
          have hi' : i < cities.length := by simpa [setDiscovered] using hi
          by_cases e : i = road.destination
          · simp [e]
          · have := inv.disc i hi'
            simp only [e, if_false, this]
            simp [e]
        · intro i hi
          simp only [setDiscovered, List.length_modify]
          rcases List.mem_append.mp hi with h | h
          · exact inv.inRange i (List.mem_append_left _ h)
          · rcases List.mem_append.mp h with h | h
            · exact inv.inRange i (List.mem_append_right _ h)
            · simp at h; subst h; exact hlt
        · intro i hi
          rcases List.mem_append.mp hi with h | h
          · exact inv.conn i (List.mem_append_left _ h)
          · rcases List.mem_append.mp h with h | h
            · exact inv.conn i (List.mem_append_right _ h)
            · simp at h; subst h; exact hconn road (List.mem_cons_self _ _)
        · have := inv.hasStart
          simp only [List.mem_append] at this ⊢
          tauto
      obtain ⟨ext, h1, h2, h3⟩ := ih (setDiscovered cities road.destination)
        (Q ++ [road.destination]) inv1 (fun r hr => hconn r (List.mem_cons_of_mem _ hr))
      refine ⟨road.destination :: ext, ?_, ?_, ?_⟩
      · simp only [visitRoads, hd, if_true]
        rw [h1]; simp
      · simp only [visitRoads, hd, if_true]
        simpa using h2
      · intro r hr hlt'
        rcases List.mem_cons.mp hr with e | hr'
        · subst e; simp
        · have := h3 r hr' hlt'
          simpa using this
    · obtain ⟨ext, h1, h2, h3⟩ := ih cities Q inv
        (fun r hr => hconn r (List.mem_cons_of_mem _ hr))
      refine ⟨ext, ?_, ?_, ?_⟩
      · simp only [visitRoads, hd, if_false]; exact h1
      · simp only [visitRoads, hd, if_false]; exact h2
      · intro r hr hlt'
        rcases List.mem_cons.mp hr with e | hr'
        · subst e
          have hdt : discoveredOf cities r.destination = true := by
            cases h : discoveredOf cities r.destination
            · exact absurd h hd
            · rfl
          have := (inv.disc _ (by omega)).mp hdt
          simp only [List.mem_append] at this ⊢
          tauto
        · exact h3 r hr' hlt'


theorem nameOf_eq_some {cities : List City} {i : Nat} {c : City} (h : cities[i]? = some c) :
    nameOf cities i = some c.name := by
  simp [nameOf, h]

theorem connectionsOf_eq {cities : List City} {i : Nat} {c : City} (h : cities[i]? = some c) :
    connectionsOf cities i = c.connections := by
  simp [connectionsOf, h]

theorem reachLoop_spec (cities0 : List City) (start : Nat) :
    ∀ (fuel : Nat) (cities : List City) (V Q : List Nat) (result : List String),
    ReachInv cities0 start cities V Q → RoadsClosed cities0 V Q →
    cities0.length ≤ fuel + V.length →
    result.map some = V.map (nameOf cities0) →
    ∃ V' result' cities', reachLoop fuel cities Q result = some (result', cities') ∧
      result'.map some = V'.map (nameOf cities0) ∧
      ReachInv cities0 start cities' V' [] ∧ RoadsClosed cities0 V' [] ∧
      V ++ Q <+: V' := by
  intro fuel
  induction fuel with
  | zero =>
    intro cities V Q result inv hclosed hfuel hres
    have hlen : cities.length = cities0.length := length_of_reset_eq inv.frame
    have hb := nodup_bounded_length _ _ inv.nodup inv.inRange
    have hq : Q = [] := by
      cases Q with
      | nil => rfl
      | cons a q => simp at hb; omega
    subst hq
    exact ⟨V, result, cities, by simp [reachLoop], hres, inv, hclosed, by simp⟩
  | succ fuel ih =>
    intro cities V Q result inv hclosed hfuel hres
    have hlen : cities.length = cities0.length := length_of_reset_eq inv.frame
    cases Q with
    | nil => exact ⟨V, result, cities, by simp [reachLoop], hres, inv, hclosed, by simp⟩
    | cons current q =>
      have hcur : current < cities.length := inv.inRange current (by simp)
      have hget : cities[current]? = some cities[current] := List.getElem?_eq_getElem hcur
      have hconnOf : connectionsOf cities0 current = cities[current].connections := by
        rw [← connectionsOf_of_reset_eq inv.frame, connectionsOf_eq hget]
      have hname : nameOf cities0 current = some cities[current].name := by
        rw [← nameOf_of_reset_eq inv.frame, nameOf_eq_some hget]
      have hassoc : V ++ current :: q = (V ++ [current]) ++ q := by simp
      have inv1 : ReachInv cities0 start cities (V ++ [current]) q := by
        refine ⟨inv.frame, ?_, ?_, ?_, ?_, ?_⟩
        · rw [← hassoc]; exact inv.nodup
        · rw [← hassoc]; exact inv.disc
        · rw [← hassoc]; exact inv.inRange
        · rw [← hassoc]; exact inv.conn
        · rw [← hassoc]; exact inv.hasStart
      have hcc : Connected cities0 start current := inv.conn current (by simp)
      obtain ⟨ext, h1, h2, h3⟩ := visitRoads_inv cities0 start (V ++ [current])
        cities[current].connections cities q inv1 (by
          intro road hr
          exact Relation.ReflTransGen.tail hcc ⟨road, by rw [hconnOf]; exact hr, rfl⟩)
      have hclosed1 : RoadsClosed cities0 (V ++ [current]) (q ++ ext) := by
        intro i hi road hr hlt
        rcases List.mem_append.mp hi with h | h
        · have := hclosed i h road hr hlt
          simp only [List.mem_append, List.mem_cons] at this ⊢
          tauto
        · simp at h; subst h
          rw [hconnOf] at hr
          exact h3 road hr hlt
      obtain ⟨V', result', cities', hrun, hres', inv', hclosed', hpre⟩ :=
        ih (visitRoads cities[current].connections (cities, q)).1 (V ++ [current])
          (q ++ ext) (result ++ [cities[current].name]) h2 hclosed1
          (by simp; omega) (by simp [hres, hname])
      refine ⟨V', result', cities', ?_, hres', inv', hclosed', ?_⟩
      · simp only [reachLoop, hget]
        rw [h1]; exact hrun
      · refine List.IsPrefix.trans ?_ hpre
        exact ⟨ext, by simp⟩


theorem discoveredOf_reset (cities : List City) (i : Nat) (hi : i < cities.length) :
    discoveredOf (cities.map City.resetSearchInfo) i = false := by
  simp [discoveredOf, List.getElem?_eq_getElem hi, City.resetSearchInfo, SearchInfo.reset]

theorem findReachableCities_spec (net : CityNetwork) (startCity : String) (start : Nat)
    (h : net.findCity startCity = some start) :
    ∃ V result cities', net.findReachableCities startCity = some (result, ⟨cities'⟩) ∧
      result.map some = V.map (nameOf net.cities) ∧
      ReachInv net.cities start cities' V [] ∧ RoadsClosed net.cities V [] ∧
      [start] <+: V := by
  have hs : start < net.cities.length := findCityIn_lt _ _ _ h
  have h' : net.resetSearchData.findCity startCity = some start := by
    rw [findCity_resetSearchData]; exact h
  have inv0 : ReachInv net.cities start
      (setDiscovered net.resetSearchData.cities start) [] [start] := by
    refine ⟨?_, by simp, ?_, ?_, ?_, by simp⟩
    · rw [setDiscovered_reset]; exact reset_idem _
    · intro i hi
      have hi' : i < net.cities.length := by
        simpa [setDiscovered, CityNetwork.resetSearchData] using hi
      rw [discoveredOf_setDiscovered]
      by_cases e : i = start
      · simp [e]
      · simp [e, CityNetwork.resetSearchData, discoveredOf_reset _ _ hi']
    · intro i hi
      simp at hi; subst hi
      simpa [setDiscovered, CityNetwork.resetSearchData] using hs
    · intro i hi
      simp at hi; subst hi
      exact Relation.ReflTransGen.refl
  obtain ⟨V, result, cities', hrun, hres, inv, hclosed, hpre⟩ :=
    reachLoop_spec net.cities start net.cities.length _ [] [start] [] inv0
      (by intro i hi; simp at hi) (by simp) (by simp)
  refine ⟨V, result, cities', ?_, hres, inv, hclosed, by simpa using hpre⟩
  simp [CityNetwork.findReachableCities, h', hrun]

theorem resetSearchData_idem (net : CityNetwork) :
    net.resetSearchData.resetSearchData = net.resetSearchData := by
  simp only [CityNetwork.resetSearchData, reset_idem]

theorem findReachableCities_total (net : CityNetwork) (t : String) :
    ∃ l net1, net.findReachableCities t = some (l, net1) ∧
      net1.resetSearchData = net.resetSearchData := by
  cases h : net.findCity t with
  | none =>
    exact ⟨[], net.resetSearchData, (query_unknown_start net t h).1,
      resetSearchData_idem net⟩
  | some start =>
    obtain ⟨V, result, cities', hrun, _, inv, _, _⟩ := findReachableCities_spec net t start h
    exact ⟨result, ⟨cities'⟩, hrun, by simp [CityNetwork.resetSearchData, inv.frame]⟩

theorem findCityIn_name : ∀ (cities : List City) (name : String) (i : Nat),
    findCityIn cities name = some i → nameOf cities i = some name := by
  intro cities
  induction cities with
  | nil => intro name i h; simp [findCityIn] at h
  | cons c cs ih =>
    intro name i h
    simp only [findCityIn] at h
    split at h
    · simp at h; subst h; simp [nameOf, *]
    · cases hf : findCityIn cs name with
      | none => simp [hf] at h
      | some k =>
        simp [hf] at h
        subst h
        have := ih name k hf
        simpa [nameOf] using this

theorem findCityIn_append (cities : List City) (x : City) (name : String) (i : Nat)
    (h : findCityIn cities name = some i) : findCityIn (cities ++ [x]) name = some i := by
  induction cities generalizing i with
  | nil => simp [findCityIn] at h
  | cons c cs ih =>
    rw [List.cons_append]
    simp only [findCityIn] at h ⊢
    by_cases hc : c.name = name
    · simpa [hc] using h
    · simp only [hc, if_false] at h ⊢
      cases hf : findCityIn cs name with
      | none => simp [hf] at h
      | some k =>
        simp [hf] at h
        rw [ih k hf]; simp [h]

theorem connectionsOf_append_new (cities : List City) (name : String) (i : Nat) :
    connectionsOf (cities ++ [City.new name]) i = connectionsOf cities i := by
  unfold connectionsOf
  by_cases h : i < cities.length
  · rw [List.getElem?_append_left h]
  · have h1 : cities[i]? = none := List.getElem?_eq_none (by omega)
    rw [List.getElem?_append_right (by omega), h1]
    by_cases h0 : i - cities.length = 0
    · simp [h0, City.new, City.resetSearchInfo]
    · have h2 : [City.new name][i - cities.length]? = none :=
        List.getElem?_eq_none (by simp; omega)
      rw [h2]

theorem wellFormed_addCity (net : CityNetwork) (name : String) (h : WellFormed net.cities) :
    WellFormed (net.addCity name).cities := by
  intro i road hr
  simp only [CityNetwork.addCity, connectionsOf_append_new] at hr
  obtain ⟨nm, hnm⟩ := h i road hr
  exact ⟨nm, findCityIn_append _ _ _ _ hnm⟩

theorem wellFormed_addRoad (net : CityNetwork) (a b : String) (w : Nat)
    (h : WellFormed net.cities) : WellFormed (net.addRoad a b w).cities := by
  cases ha : net.findCity a with
  | none => simpa [CityNetwork.addRoad, ha] using h
  | some i =>
    cases hb : net.findCity b with
    | none => simpa [CityNetwork.addRoad, ha, hb] using h
    | some j =>
      have hi := findCityIn_lt _ _ _ ha
      have hj := findCityIn_lt _ _ _ hb
      have hj' : j < (emplaceConnection net.cities i j (w % 4294967296)).length := by
        simpa [emplaceConnection] using hj
      have hcities : (net.addRoad a b w).cities =
          emplaceConnection (emplaceConnection net.cities i j (w % 4294967296)) j i
            (w % 4294967296) := by
        simp [CityNetwork.addRoad, ha, hb]
      have hfind : ∀ n, findCityIn (net.addRoad a b w).cities n = findCityIn net.cities n := by
        intro n
        apply findCityIn_congr
        rw [hcities, map_name_emplace, map_name_emplace]
      intro k road hr
      have key : road ∈ connectionsOf net.cities k ∨ road.destination = i
          ∨ road.destination = j := by
        rw [hcities, connectionsOf_emplace _ _ _ _ _ hj'] at hr
        split at hr
        · rw [connectionsOf_emplace _ _ _ _ _ hi] at hr
          split at hr
          · simp only [List.mem_append, List.mem_singleton] at hr
            rcases hr with (hr | hr) | hr
            · left; subst_vars; exact hr
            · right; right; rw [hr]
            · right; left; rw [hr]
          · simp only [List.mem_append, List.mem_singleton] at hr
            rcases hr with hr | hr
            · left; subst_vars; exact hr
            · right; left; rw [hr]
        · rw [connectionsOf_emplace _ _ _ _ _ hi] at hr
          split at hr
          · simp only [List.mem_append, List.mem_singleton] at hr
            rcases hr with hr | hr
            · left; subst_vars; exact hr
            · right; right; rw [hr]
          · left; exact hr
      rcases key with hk | hk | hk
      · obtain ⟨nm, hnm⟩ := h k road hk
        exact ⟨nm, by rw [hfind]; exact hnm⟩
      · exact ⟨a, by rw [hfind, hk]; exact ha⟩
      · exact ⟨b, by rw [hfind, hk]; exact hb⟩

theorem build_snoc (ops : List BuildOp) (op : BuildOp) :
    build (ops ++ [op]) = BuildOp.apply (build ops) op := by
  simp [build, List.foldl_append]

theorem build_wellFormed (ops : List BuildOp) : WellFormed (build ops).cities := by
  induction ops using List.reverseRecOn with
  | nil => intro i road hr; simp [build, CityNetwork.empty, connectionsOf] at hr
  | append_singleton ops op ih =>
    rw [build_snoc]
    cases op with
    | addCity name => exact wellFormed_addCity _ _ ih
    | addRoad a b w => exact wellFormed_addRoad _ _ _ _ ih


theorem connected_found (cities : List City) (start i : Nat) (hwf : WellFormed cities)
    (hs : ∃ name, findCityIn cities name = some start) (hc : Connected cities start i) :
    ∃ name, findCityIn cities name = some i := by
  induction hc with
  | refl => exact hs
  | tail _ hroad _ =>
    obtain ⟨road, hr, hd⟩ := hroad
    rw [← hd]
    exact hwf _ road hr

theorem found_inj (cities : List City) (i j : Nat)
    (hi : ∃ name, findCityIn cities name = some i)
    (hj : ∃ name, findCityIn cities name = some j)
    (h : nameOf cities i = nameOf cities j) : i = j := by
  obtain ⟨ni, hni⟩ := hi
  obtain ⟨nj, hnj⟩ := hj
  have h1 := findCityIn_name _ _ _ hni
  have h2 := findCityIn_name _ _ _ hnj
  rw [h1, h2] at h
  have : ni = nj := Option.some.inj h
  subst this
  rw [hni] at hnj
  exact Option.some.inj hnj

theorem connected_mem (cities : List City) (start i : Nat) (V : List Nat)
    (hwf : WellFormed cities) (hclosed : RoadsClosed cities V []) (hs : start ∈ V)
    (hc : Connected cities start i) : i ∈ V := by
  induction hc with
  | refl => exact hs
  | tail _ hroad ih =>
    obtain ⟨road, hr, hd⟩ := hroad
    obtain ⟨nm, hnm⟩ := hwf _ road hr
    have := hclosed _ ih road hr (findCityIn_lt _ _ _ hnm)
    rw [← hd]
    simpa using this

/-- What `findReachableCities` returns on a network with well-formed road entries:
the names of the cities of `order`, which lists exactly the connected cities, once each,
the start first. -/
theorem findReachableCities_sound (net : CityNetwork) (hwf : WellFormed net.cities)
    (startCity : String) (start : Nat) (h : net.findCity startCity = some start) :
    ∃ (order : List Nat) (result : List String) (net' : CityNetwork),
      net.findReachableCities startCity = some (result, net') ∧
      result.map some = order.map (nameOf net.cities) ∧
      order.head? = some start ∧ order.Nodup ∧
      (∀ i, i ∈ order ↔ Connected net.cities start i) ∧
      result.Nodup ∧ result.head? = some startCity := by
  obtain ⟨V, result, cities', hrun, hres, inv, hclosed, hpre⟩ :=
    findReachableCities_spec net startCity start h
  have hnodup : V.Nodup := by simpa using inv.nodup
  have hiff : ∀ i, i ∈ V ↔ Connected net.cities start i := by
    intro i
    constructor
    · intro hi; exact inv.conn i (by simpa using hi)
    · intro hc
      exact connected_mem _ _ _ _ hwf hclosed (by simpa using inv.hasStart) hc
  obtain ⟨tl, htl⟩ := hpre
  have hV : V = start :: tl := by simpa using htl.symm
  refine ⟨V, result, ⟨cities'⟩, hrun, hres, by simp [hV], hnodup, hiff, ?_, ?_⟩
  · have : (V.map (nameOf net.cities)).Nodup := by
      refine List.Nodup.map_on ?_ hnodup
      intro x hx y hy hxy
      exact found_inj _ _ _
        (connected_found _ _ _ hwf ⟨startCity, h⟩ ((hiff x).mp hx))
        (connected_found _ _ _ hwf ⟨startCity, h⟩ ((hiff y).mp hy)) hxy
    rw [← hres] at this
    exact List.Nodup.of_map _ this
  · rw [hV] at hres
    cases result with
    | nil => simp at hres
    | cons r rs =>
      simp only [List.map_cons, List.cons.injEq] at hres
      have hn := findCityIn_name _ _ _ h
      rw [hn] at hres
      simp [Option.some.inj hres.1]

/-- C2 (amended): for every network built from empty by `addCity`/`addRoad` and every
start name that names a city, `findReachableCities` returns a sequence that begins with
the start name, contains the name of every city connected to the start, contains only
names carried by some connected city, does not contain the name under which `findCity`
finds a city that is not connected, and contains no name twice: it names the cities of a
duplicate-free list `order` that holds exactly the connected cities. -/
theorem findReachableCities_exact (ops : List BuildOp) (startCity : String) (start : Nat)
    (h : (build ops).findCity startCity = some start) :
    ∃ result net', (build ops).findReachableCities startCity = some (result, net') ∧
      result.head? = some startCity ∧
      (∀ i name, Connected (build ops).cities start i →
        nameOf (build ops).cities i = some name → name ∈ result) ∧
      (∀ name ∈ result, ∃ i, Connected (build ops).cities start i ∧
        nameOf (build ops).cities i = some name) ∧
      (∀ i name, (build ops).findCity name = some i →
        ¬ Connected (build ops).cities start i → name ∉ result) ∧
      result.Nodup ∧
      ∃ order : List Nat, order.Nodup ∧
        result.map some = order.map (nameOf (build ops).cities) ∧
        ∀ i, i ∈ order ↔ Connected (build ops).cities start i := by
  have hwf := build_wellFormed ops
  obtain ⟨order, result, net', hrun, hres, _, hnodup, hiff, hrn, hhead⟩ :=
    findReachableCities_sound (build ops) hwf startCity start h
  have hback : ∀ name ∈ result, ∃ i, Connected (build ops).cities start i ∧
      nameOf (build ops).cities i = some name := by
    intro name hn
    have : some name ∈ result.map some := List.mem_map_of_mem _ hn
    rw [hres] at this
    obtain ⟨i, hi, hin⟩ := List.mem_map.mp this
    exact ⟨i, (hiff i).mp hi, hin⟩
  refine ⟨result, net', hrun, hhead, ?_, hback, ?_, hrn, order, hnodup, hres, hiff⟩
  · intro i name hc hn
    have : nameOf (build ops).cities i ∈ order.map (nameOf (build ops).cities) :=
      List.mem_map_of_mem _ ((hiff i).mpr hc)
    rw [← hres, hn] at this
    simpa using this
  · intro i name hf hnc hmem
    obtain ⟨j, hj, hjn⟩ := hback name hmem
    have hin := findCityIn_name _ _ _ hf
    have : i = j := found_inj _ _ _ ⟨name, hf⟩
      (connected_found _ _ _ hwf ⟨startCity, h⟩ hj) (by rw [hin, hjn])
    exact hnc (this ▸ hj)

theorem findReachableCities_exact_witness :
    ∃ result net', (build demoOps).findReachableCities "Metropolis" = some (result, net') ∧
      result.head? = some "Metropolis" ∧
      (∀ i name, Connected (build demoOps).cities 0 i →
        nameOf (build demoOps).cities i = some name → name ∈ result) ∧
      (∀ name ∈ result, ∃ i, Connected (build demoOps).cities 0 i ∧
        nameOf (build demoOps).cities i = some name) ∧
      (∀ i name, (build demoOps).findCity name = some i →
        ¬ Connected (build demoOps).cities 0 i → name ∉ result) ∧
      result.Nodup ∧
      ∃ order : List Nat, order.Nodup ∧
        result.map some = order.map (nameOf (build demoOps).cities) ∧
        ∀ i, i ∈ order ↔ Connected (build demoOps).cities 0 i :=
  findReachableCities_exact demoOps "Metropolis" 0 (by decide)

/-- C2 fails as stated: after `addCity` A, B, A and `addRoad` A B 5 the sequence returned
for start A is A, B; the third city is named A, a name of the sequence, and it is not
connected to the start (it has no road and no road leads to it). -/
theorem findReachableCities_exact_counterexample :
    (build shadowedOps).findCity "A" = some 0 ∧
    ((build shadowedOps).findReachableCities "A").map Prod.fst = some ["A", "B"] ∧
    nameOf (build shadowedOps).cities 2 = some "A" ∧
    ¬ Connected (build shadowedOps).cities 0 2 := by
  refine ⟨by decide, by decide, by decide, ?_⟩
  intro hc
  obtain ⟨name, hname⟩ := connected_found _ 0 2 (build_wellFormed shadowedOps)
    ⟨"A", by decide⟩ hc
  have hn := findCityIn_name _ _ _ hname
  have h2 : nameOf (build shadowedOps).cities 2 = some "A" := by decide
  rw [h2] at hn
  have hname' : findCityIn (build shadowedOps).cities "A" = some 2 := by
    rw [Option.some.inj hn]; exact hname
  have h0 : findCityIn (build shadowedOps).cities "A" = some 0 := by decide
  rw [h0] at hname'
  exact absurd hname' (by decide)


/-! ## The heap operations permute the heap vector -/

theorem set_perm_cons_eraseIdx : ∀ (l : List Nat) (i v : Nat), i < l.length →
    (l.set i v).Perm (v :: l.eraseIdx i) := by
  intro l
  induction l with
  | nil => intro i v h; simp at h
  | cons x xs ih =>
    intro i v h
    cases i with
    | zero => simp
    | succ i =>
      simp only [List.set_cons_succ, List.eraseIdx_cons_succ]
      have := ih i v (by simpa using h)
      exact (List.Perm.cons x this).trans (List.Perm.swap v x _)

theorem perm_getD_cons_eraseIdx : ∀ (l : List Nat) (i d : Nat), i < l.length →
    l.Perm (l.getD i d :: l.eraseIdx i) := by
  intro l
  induction l with
  | nil => intro i d h; simp at h
  | cons x xs ih =>
    intro i d h
    cases i with
    | zero => simp
    | succ i =>
      simp only [List.getD_cons_succ, List.eraseIdx_cons_succ]
      have := ih i d (by simpa using h)
      exact (List.Perm.cons x this).trans (List.Perm.swap _ x _)

/-- Moving the entry at `j` into position `i` and writing `v` at `j` permutes the
list obtained by writing `v` at `i`. -/
theorem set_swap_perm : ∀ (l : List Nat) (i j v d : Nat), i < l.length → j < l.length →
    i ≠ j → ((l.set i (l.getD j d)).set j v).Perm (l.set i v) := by
  intro l
  induction l with
  | nil => intro i j v d h; simp at h
  | cons x xs ih =>
    intro i j v d hi hj hij
    cases i with
    | zero =>
      cases j with
      | zero => exact absurd rfl hij
      | succ j =>
        simp only [List.set_cons_zero, List.set_cons_succ, List.getD_cons_succ]
        have hj' : j < xs.length := by simpa using hj
        have h1 := set_perm_cons_eraseIdx xs j v hj'
        have h2 := perm_getD_cons_eraseIdx xs j d hj'
        exact ((List.Perm.cons _ h1).trans (List.Perm.swap _ _ _)).trans
          (List.Perm.cons _ h2.symm)
    | succ i =>
      have hi' : i < xs.length := by simpa using hi
      cases j with
      | zero =>
        simp only [List.set_cons_zero, List.set_cons_succ, List.getD_cons_zero]
        have h1 := set_perm_cons_eraseIdx xs i x hi'
        have h2 := set_perm_cons_eraseIdx xs i v hi'
        exact ((List.Perm.cons _ h1).trans (List.Perm.swap _ _ _)).trans
          (List.Perm.cons _ h2.symm)
      | succ j =>
        simp only [List.set_cons_succ, List.getD_cons_succ]
        exact List.Perm.cons _ (ih i j v d hi' (by simpa using hj) (by omega))

theorem pushHeapLoop_length (cities : List City) (value top : Nat) :
    ∀ (fuel : Nat) (first : List Nat) (hole : Nat),
    (pushHeapLoop cities value top fuel first hole).length = first.length := by
  intro fuel
  induction fuel with
  | zero => intro first hole; simp [pushHeapLoop]
  | succ fuel ih =>
    intro first hole
    simp only [pushHeapLoop]
    split
    · rw [ih]; simp
    · simp

theorem pushHeapLoop_perm (cities : List City) (value top : Nat) :
    ∀ (fuel : Nat) (first : List Nat) (hole : Nat), hole < first.length →
    (pushHeapLoop cities value top fuel first hole).Perm (first.set hole value) := by
  intro fuel
  induction fuel with
  | zero => intro first hole _; simp [pushHeapLoop]
  | succ fuel ih =>
    intro first hole h
    simp only [pushHeapLoop]
    split
    · rename_i hc
      have hpos : hole > top := by
        simp only [Bool.and_eq_true, decide_eq_true_eq] at hc; exact hc.1
      have hp : (hole - 1) / 2 < hole := by omega
      refine (ih _ _ (by simp; omega)).trans ?_
      exact set_swap_perm first hole ((hole - 1) / 2) value 0 h (by omega) (by omega)
    · exact List.Perm.refl _

theorem pushHeapLoop_getD (cities : List City) (value top : Nat) :
    ∀ (fuel : Nat) (first : List Nat) (hole k d : Nat), hole < k →
    (pushHeapLoop cities value top fuel first hole).getD k d = first.getD k d := by
  intro fuel
  induction fuel with
  | zero =>
    intro first hole k d h
    simp only [pushHeapLoop, List.getD_eq_getElem?_getD]
    rw [List.getElem?_set_ne (by omega)]
  | succ fuel ih =>
    intro first hole k d h
    simp only [pushHeapLoop]
    split
    · rw [ih _ _ _ _ (by omega)]
      simp only [List.getD_eq_getElem?_getD]
      rw [List.getElem?_set_ne (by omega)]
    · simp only [List.getD_eq_getElem?_getD]
      rw [List.getElem?_set_ne (by omega)]


theorem adjustHeapLoop_spec (cities : List City) (len : Nat) :
    ∀ (fuel : Nat) (first : List Nat) (hole : Nat), hole < len → len ≤ first.length →
    (adjustHeapLoop cities len fuel first hole hole).2.1
        = (adjustHeapLoop cities len fuel first hole hole).2.2 ∧
      (adjustHeapLoop cities len fuel first hole hole).2.1 < len ∧
      (adjustHeapLoop cities len fuel first hole hole).1.length = first.length ∧
      (∀ v, (((adjustHeapLoop cities len fuel first hole hole).1).set
          (adjustHeapLoop cities len fuel first hole hole).2.1 v).Perm (first.set hole v)) ∧
      (∀ k d, len ≤ k →
        ((adjustHeapLoop cities len fuel first hole hole).1).getD k d = first.getD k d) := by
  intro fuel
  induction fuel with
  | zero =>
    intro first hole h1 h2
    simp [adjustHeapLoop, h1]
  | succ fuel ih =>
    intro first hole h1 h2
    by_cases hc : hole < (len - 1) / 2
    · by_cases hcmp : cmp cities (first.getD (2 * (hole + 1)) 0)
          (first.getD (2 * (hole + 1) - 1) 0) = true
      · have hrec : adjustHeapLoop cities len (fuel + 1) first hole hole =
            adjustHeapLoop cities len fuel
              (first.set hole (first.getD (2 * (hole + 1) - 1) 0))
              (2 * (hole + 1) - 1) (2 * (hole + 1) - 1) := by
          simp only [adjustHeapLoop, if_pos hc, if_pos hcmp]
        rw [hrec]
        obtain ⟨a, b, c, d, e⟩ := ih (first.set hole (first.getD (2 * (hole + 1) - 1) 0))
          (2 * (hole + 1) - 1) (by omega) (by simpa using h2)
        refine ⟨a, b, by simpa using c, ?_, ?_⟩
        · intro v
          exact (d v).trans (set_swap_perm first hole _ v 0 (by omega) (by omega) (by omega))
        · intro k dd hk
          rw [e k dd hk]
          simp only [List.getD_eq_getElem?_getD]
          rw [List.getElem?_set_ne (by omega)]
      · have hrec : adjustHeapLoop cities len (fuel + 1) first hole hole =
            adjustHeapLoop cities len fuel
              (first.set hole (first.getD (2 * (hole + 1)) 0))
              (2 * (hole + 1)) (2 * (hole + 1)) := by
          simp only [adjustHeapLoop, if_pos hc, if_neg hcmp]
        rw [hrec]
        obtain ⟨a, b, c, d, e⟩ := ih (first.set hole (first.getD (2 * (hole + 1)) 0))
          (2 * (hole + 1)) (by omega) (by simpa using h2)
        refine ⟨a, b, by simpa using c, ?_, ?_⟩
        · intro v
          exact (d v).trans (set_swap_perm first hole _ v 0 (by omega) (by omega) (by omega))
        · intro k dd hk
          rw [e k dd hk]
          simp only [List.getD_eq_getElem?_getD]
          rw [List.getElem?_set_ne (by omega)]
    · have hrec : adjustHeapLoop cities len (fuel + 1) first hole hole = (first, hole, hole) := by
        simp [adjustHeapLoop, hc]
      rw [hrec]
      simp [h1]

theorem adjustHeap_spec (cities : List City) (first : List Nat) (hole len value : Nat)
    (h1 : hole < len) (h2 : len ≤ first.length) :
    (adjustHeap cities first hole len value).Perm (first.set hole value) ∧
    (adjustHeap cities first hole len value).length = first.length ∧
    (∀ k d, len ≤ k → (adjustHeap cities first hole len value).getD k d = first.getD k d) := by
  obtain ⟨a, b, c, d, e⟩ := adjustHeapLoop_spec cities len len first hole h1 h2
  unfold adjustHeap pushHeapAt
  generalize adjustHeapLoop cities len len first hole hole = r at a b c d e
  obtain ⟨f, h, sc⟩ := r
  simp only at a b c d e ⊢
  subst a
  split
  · rename_i hcond
    have hlt : 2 * (h + 1) - 1 < len := by omega
    refine ⟨?_, ?_, ?_⟩
    · refine (pushHeapLoop_perm _ _ _ _ _ _ (by simp; omega)).trans ?_
      exact (set_swap_perm f h _ value 0 (by omega) (by omega) (by omega)).trans (d value)
    · rw [pushHeapLoop_length]; simpa using c
    · intro k dd hk
      rw [pushHeapLoop_getD _ _ _ _ _ _ _ _ (by omega)]
      simp only [List.getD_eq_getElem?_getD]
      rw [List.getElem?_set_ne (by omega)]
      simpa [List.getD_eq_getElem?_getD] using e k dd hk
  · refine ⟨?_, ?_, ?_⟩
    · exact (pushHeapLoop_perm _ _ _ _ _ _ (by omega)).trans (d value)
    · rw [pushHeapLoop_length]; exact c
    · intro k dd hk
      rw [pushHeapLoop_getD _ _ _ _ _ _ _ _ (by omega)]
      exact e k dd hk

theorem set_getD_self : ∀ (l : List Nat) (i d : Nat), l.set i (l.getD i d) = l := by
  intro l
  induction l with
  | nil => intro i d; simp
  | cons x xs ih =>
    intro i d
    cases i with
    | zero => simp
    | succ i => simp only [List.getD_cons_succ, List.set_cons_succ, ih]

theorem pqPush_perm (cities : List City) (pq : List Nat) (x : Nat) :
    (pqPush cities pq x).Perm (x :: pq) := by
  unfold pqPush push_heap pushHeapAt
  refine (pushHeapLoop_perm _ _ _ _ _ _ (by simp)).trans ?_
  have h1 : (pq ++ [x]).getD ((pq ++ [x]).length - 1) 0 = x := by
    simp [List.getD_eq_getElem?_getD]
  have h2 : (pq ++ [x]).set ((pq ++ [x]).length - 1) x = pq ++ [x] := by
    simp
  rw [h1, h2]
  exact List.perm_append_singleton x pq

theorem pqPop_perm (cities : List City) (current : Nat) (rest : List Nat) :
    (pqPop cities (current :: rest)).Perm rest := by
  cases rest with
  | nil => simp [pqPop, pop_heap]
  | cons b bs =>
    have hpop : pop_heap cities (current :: b :: bs) =
        adjustHeap cities ((current :: b :: bs).set (bs.length + 1) current) 0
          (bs.length + 1) ((current :: b :: bs).getD (bs.length + 1) 0) := by
      simp [pop_heap]
    unfold pqPop
    rw [hpop]
    obtain ⟨a, hb, c⟩ := adjustHeap_spec cities
      ((current :: b :: bs).set (bs.length + 1) current) 0
      (bs.length + 1) ((current :: b :: bs).getD (bs.length + 1) 0)
      (by omega) (by simp)
    generalize adjustHeap cities _ 0 _ _ = r at a hb c
    have hperm : r.Perm (current :: b :: bs) := by
      refine a.trans ?_
      have := set_swap_perm (current :: b :: bs) (bs.length + 1) 0
        ((current :: b :: bs).getD (bs.length + 1) 0) 0 (by simp) (by simp) (by omega)
      simp only [List.getD_cons_zero] at this
      refine this.trans ?_
      rw [set_getD_self]
    have hrlen : r.length = bs.length + 2 := by simpa using hb
    have hlast := c (bs.length + 1) 0 (by omega)
    have hne : r ≠ [] := by intro e; simp [e] at hrlen
    have hr : r = r.dropLast ++ [current] := by
      conv_lhs => rw [← List.dropLast_append_getLast hne]
      congr 1
      rw [List.getLast_eq_getElem]
      have h3 : r.length - 1 = bs.length + 1 := by omega
      simp only [List.getD_eq_getElem?_getD] at hlast
      rw [List.getElem?_eq_getElem (by omega), List.getElem?_set_self (by simp)] at hlast
      simp only [h3]
      simpa using hlast
    rw [hr] at hperm
    have := (List.perm_append_singleton current r.dropLast).symm.trans hperm
    exact List.Perm.cons_inv this


/-- The loop of `__push_heap` has ended by itself once the fuel reaches the hole index:
more fuel gives the same vector. -/
theorem pushHeapLoop_fuel (cities : List City) (value top : Nat) :
    ∀ (fuel : Nat) (first : List Nat) (hole : Nat), hole ≤ fuel →
    pushHeapLoop cities value top (fuel + 1) first hole
      = pushHeapLoop cities value top fuel first hole := by
  intro fuel
  induction fuel with
  | zero =>
    intro first hole h
    have : hole = 0 := by omega
    subst this
    simp [pushHeapLoop]
  | succ fuel ih =>
    intro first hole h
    by_cases hc : (decide (hole > top) &&
        cmp cities (first.getD ((hole - 1) / 2) 0) value) = true
    · have hpos : hole > top := by
        simp only [Bool.and_eq_true, decide_eq_true_eq] at hc; exact hc.1
      have e1 : ∀ f, pushHeapLoop cities value top (f + 1) first hole =
          pushHeapLoop cities value top f
            (first.set hole (first.getD ((hole - 1) / 2) 0)) ((hole - 1) / 2) := by
        intro f; simp only [pushHeapLoop, if_pos hc]
      rw [e1 (fuel + 1), e1 fuel]
      exact ih _ _ (by omega)
    · have e1 : ∀ f, pushHeapLoop cities value top (f + 1) first hole =
          first.set hole value := by
        intro f; simp only [pushHeapLoop, if_neg hc]
      rw [e1 (fuel + 1), e1 fuel]

/-- The first loop of `__adjust_heap` has ended by itself once the fuel reaches `len`:
more fuel gives the same result. -/
theorem adjustHeapLoop_fuel (cities : List City) (len : Nat) :
    ∀ (fuel : Nat) (first : List Nat) (hole sc : Nat), len ≤ fuel + sc →
    adjustHeapLoop cities len (fuel + 1) first hole sc
      = adjustHeapLoop cities len fuel first hole sc := by
  intro fuel
  induction fuel with
  | zero =>
    intro first hole sc h
    have : ¬ sc < (len - 1) / 2 := by omega
    simp [adjustHeapLoop, this]
  | succ fuel ih =>
    intro first hole sc h
    by_cases hc : sc < (len - 1) / 2
    · by_cases hcmp : cmp cities (first.getD (2 * (sc + 1)) 0)
          (first.getD (2 * (sc + 1) - 1) 0) = true
      · have e1 : ∀ f, adjustHeapLoop cities len (f + 1) first hole sc =
            adjustHeapLoop cities len f
              (first.set hole (first.getD (2 * (sc + 1) - 1) 0))
              (2 * (sc + 1) - 1) (2 * (sc + 1) - 1) := by
          intro f; simp only [adjustHeapLoop, if_pos hc, if_pos hcmp]
        rw [e1 (fuel + 1), e1 fuel]
        exact ih _ _ _ (by omega)
      · have e1 : ∀ f, adjustHeapLoop cities len (f + 1) first hole sc =
            adjustHeapLoop cities len f
              (first.set hole (first.getD (2 * (sc + 1)) 0))
              (2 * (sc + 1)) (2 * (sc + 1)) := by
          intro f; simp only [adjustHeapLoop, if_pos hc, if_neg hcmp]
        rw [e1 (fuel + 1), e1 fuel]
        exact ih _ _ _ (by omega)
    · have e1 : ∀ f, adjustHeapLoop cities len (f + 1) first hole sc =
          (first, hole, sc) := by
        intro f; simp only [adjustHeapLoop, if_neg hc]
      rw [e1 (fuel + 1), e1 fuel]

/-! ## Shortest-path query -/

theorem modify_map_preserve {β : Type} (cities : List City) (f : City → City) (g : City → β)
    (i : Nat) (hf : ∀ c, g (f c) = g c) : (cities.modify f i).map g = cities.map g := by
  apply List.ext_getElem?
  intro k
  simp only [List.getElem?_map, List.getElem?_modify]
  cases cities[k]? with
  | none => rfl
  | some c => by_cases h : i = k <;> simp [h, hf]

theorem modify_map_sum (g : City → Nat) (f : City → City) :
    ∀ (cities : List City) (i : Nat) (c : City), cities[i]? = some c →
    ((cities.modify f i).map g).sum + g c = (cities.map g).sum + g (f c) := by
  intro cities
  induction cities with
  | nil => intro i c h; simp at h
  | cons x xs ih =>
    intro i c h
    cases i with
    | zero =>
      simp at h; subst h
      simp; omega
    | succ i =>
      simp at h
      have := ih i c h
      simp; omega

theorem distanceOf_setDistance (cities : List City) (d v cur i : Nat) (hd : d < cities.length) :
    distanceOf (setDistance cities d v cur) i = if i = d then v else distanceOf cities i := by
  unfold distanceOf setDistance
  rw [List.getElem?_modify]
  by_cases h : i = d
  · subst h; simp [List.getElem?_eq_getElem hd]
  · have : ¬ d = i := fun e => h e.symm
    cases cities[i]? <;> simp [h, this]

theorem finalizedOf_setDistance (cities : List City) (d v cur i : Nat) :
    finalizedOf (setDistance cities d v cur) i = finalizedOf cities i := by
  unfold finalizedOf setDistance
  rw [List.getElem?_modify]
  cases cities[i]? with
  | none => rfl
  | some c => by_cases h : d = i <;> simp [h]

theorem pendingCount_setDistance (cities : List City) (d v cur : Nat) :
    pendingCount (setDistance cities d v cur) = pendingCount cities := by
  unfold pendingCount setDistance
  rw [modify_map_preserve]
  intro c; rfl

theorem distanceOf_setFinalized (cities : List City) (k i : Nat) :
    distanceOf (setFinalized cities k) i = distanceOf cities i := by
  unfold distanceOf setFinalized
  rw [List.getElem?_modify]
  cases cities[i]? with
  | none => rfl
  | some c => by_cases h : k = i <;> simp [h]

theorem finalizedOf_setFinalized (cities : List City) (k i : Nat) (hk : k < cities.length) :
    finalizedOf (setFinalized cities k) i = if i = k then true else finalizedOf cities i := by
  unfold finalizedOf setFinalized
  rw [List.getElem?_modify]
  by_cases h : i = k
  · subst h; simp [List.getElem?_eq_getElem hk]
  · have : ¬ k = i := fun e => h e.symm
    cases cities[i]? <;> simp [h, this]

theorem pendingCount_setFinalized (cities : List City) (k : Nat) (c : City)
    (h : cities[k]? = some c) (hf : c.searchInfo.finalized = false) :
    pendingCount (setFinalized cities k) + c.connections.length = pendingCount cities := by
  have := modify_map_sum (fun c => if c.searchInfo.finalized then 0 else c.connections.length)
    (fun c => ⟨c.name, c.connections, ⟨c.searchInfo.discovered, c.searchInfo.distance,
      c.searchInfo.previous, true⟩⟩) cities k c h
  simp only [hf] at this
  simpa [pendingCount, setFinalized] using this

theorem distanceOf_pos_lt {cities : List City} {i : Nat} (h : 0 < distanceOf cities i) :
    i < cities.length := by
  unfold distanceOf at h
  by_contra hn
  rw [List.getElem?_eq_none (by omega)] at h
  simp at h

theorem sum_map_mono {α : Type} (l : List α) (f g : α → Nat)
    (hle : ∀ x ∈ l, f x ≤ g x) : (l.map f).sum ≤ (l.map g).sum := by
  induction l with
  | nil => simp
  | cons x xs ih =>
    simp only [List.map_cons, List.sum_cons]
    have h1 := hle x (List.mem_cons_self _ _)
    have h2 := ih (fun y hy => hle y (List.mem_cons_of_mem _ hy))
    omega

theorem sum_map_gain {α : Type} (l : List α) (f g : α → Nat) (r0 : α) (w : Nat)
    (hle : ∀ x ∈ l, f x ≤ g x) (hr : r0 ∈ l) (hgain : f r0 + w ≤ g r0) :
    (l.map f).sum + w ≤ (l.map g).sum := by
  induction l with
  | nil => simp at hr
  | cons x xs ih =>
    simp only [List.map_cons, List.sum_cons]
    rcases List.mem_cons.mp hr with e | hr'
    · subst e
      have := sum_map_mono xs f g (fun y hy => hle y (List.mem_cons_of_mem _ hy))
      omega
    · have h1 := hle x (List.mem_cons_self _ _)
      have h2 := ih (fun y hy => hle y (List.mem_cons_of_mem _ hy)) hr'
      omega

theorem reachedLength_mono (roads : List RoadRecord) (cities cities' : List City)
    (h : ∀ i, distanceOf cities i ≠ UINT_MAX → distanceOf cities' i ≠ UINT_MAX) :
    reachedLength roads cities ≤ reachedLength roads cities' := by
  unfold reachedLength
  apply sum_map_mono
  intro r _
  by_cases hr : distanceOf cities r.source ≠ UINT_MAX ∧ distanceOf cities r.target ≠ UINT_MAX
  · rw [if_pos hr, if_pos ⟨h _ hr.1, h _ hr.2⟩]
  · rw [if_neg hr]; exact Nat.zero_le _

theorem reachedLength_gain (roads : List RoadRecord) (cities cities' : List City)
    (h : ∀ i, distanceOf cities i ≠ UINT_MAX → distanceOf cities' i ≠ UINT_MAX)
    (r0 : RoadRecord) (hr0 : r0 ∈ roads)
    (hnot : ¬ (distanceOf cities r0.source ≠ UINT_MAX ∧ distanceOf cities r0.target ≠ UINT_MAX))
    (hboth : distanceOf cities' r0.source ≠ UINT_MAX ∧ distanceOf cities' r0.target ≠ UINT_MAX) :
    reachedLength roads cities + r0.length ≤ reachedLength roads cities' := by
  unfold reachedLength
  apply sum_map_gain _ _ _ r0 _ _ hr0
  · rw [if_neg hnot, if_pos hboth]; omega
  · intro r _
    by_cases hr : distanceOf cities r.source ≠ UINT_MAX ∧ distanceOf cities r.target ≠ UINT_MAX
    · rw [if_pos hr, if_pos ⟨h _ hr.1, h _ hr.2⟩]
    · rw [if_neg hr]; exact Nat.zero_le _

theorem reachedLength_add_le_total (roads : List RoadRecord) (cities : List City)
    (r0 : RoadRecord) (hr0 : r0 ∈ roads)
    (hnot : ¬ (distanceOf cities r0.source ≠ UINT_MAX ∧ distanceOf cities r0.target ≠ UINT_MAX)) :
    reachedLength roads cities + r0.length ≤ totalRoadLength roads := by
  unfold reachedLength totalRoadLength
  apply sum_map_gain _ _ _ r0 _ _ hr0
  · rw [if_neg hnot]; omega
  · intro r _
    split
    · exact Nat.le_refl _
    · exact Nat.zero_le _

/-- A road entry towards a city at distance "infinity" belongs to a road that is not yet
counted in `reachedLength`. -/
theorem cover_uncounted (roads : List RoadRecord) (cities0 cities : List City)
    (hcover : RoadsCover roads cities0) (u : Nat) (e : RoadConnection)
    (he : e ∈ connectionsOf cities0 u) (hinf : distanceOf cities e.destination = UINT_MAX) :
    ∃ r0 ∈ roads, r0.length = e.length ∧
      ((r0.source = u ∧ r0.target = e.destination) ∨
        (r0.source = e.destination ∧ r0.target = u)) ∧
      ¬ (distanceOf cities r0.source ≠ UINT_MAX ∧ distanceOf cities r0.target ≠ UINT_MAX) := by
  rcases hcover u e he with h | h
  · exact ⟨_, h, rfl, Or.inl ⟨rfl, rfl⟩, fun hh => hh.2 hinf⟩
  · exact ⟨_, h, rfl, Or.inr ⟨rfl, rfl⟩, fun hh => hh.1 hinf⟩

theorem pathInv_relax_step (cities0 : List City) (roads : List RoadRecord)
    (hcover : RoadsCover roads cities0) (start current : Nat) (road : RoadConnection)
    (cities : List City) (pq : List Nat) (inv : PathInv cities0 roads start cities pq)
    (hcur : current < cities.length) (hfin : distanceOf cities current ≠ UINT_MAX)
    (hroad : road ∈ connectionsOf cities0 current)
    (hlt : (distanceOf cities current + road.length) % 4294967296
      < distanceOf cities road.destination) :
    PathInv cities0 roads start
      (setDistance cities road.destination
        ((distanceOf cities current + road.length) % 4294967296) current)
      (pqPush (setDistance cities road.destination
        ((distanceOf cities current + road.length) % 4294967296) current) pq
        road.destination) := by
  have hd : road.destination < cities.length := distanceOf_pos_lt (by omega)
  have hle := inv.leMax road.destination
  have hmodle : (distanceOf cities current + road.length) % 4294967296
      ≤ distanceOf cities current + road.length := Nat.mod_le _ _
  have hmem : ∀ i, i ∈ pqPush (setDistance cities road.destination
        ((distanceOf cities current + road.length) % 4294967296) current) pq
        road.destination ↔ i = road.destination ∨ i ∈ pq := by
    intro i
    rw [(pqPush_perm _ _ _).mem_iff]; simp
  have hcc : Connected cities0 start current := inv.conn current hcur hfin
  refine ⟨?_, ?_, ?_, ?_, ?_, ?_, ?_, ?_⟩
  · rw [setDistance_reset]; exact inv.frame
  · intro i
    rw [distanceOf_setDistance _ _ _ _ _ hd]
    split
    · omega
    · exact inv.leMax i
  · intro i hi
    simp only [setDistance, List.length_modify]
    rcases (hmem i).mp hi with e | h
    · rw [e]; exact hd
    · exact inv.inRange i h
  · intro i hi
    rw [distanceOf_setDistance _ _ _ _ _ hd]
    split
    · omega
    · rcases (hmem i).mp hi with e | h
      · contradiction
      · exact inv.queuedFinite i h
  · refine ⟨by simpa [setDistance] using inv.startFinite.1, ?_⟩
    rw [distanceOf_setDistance _ _ _ _ _ hd]
    split
    · omega
    · exact inv.startFinite.2
  · intro i hi hfi
    have hi' : i < cities.length := by simpa [setDistance] using hi
    rw [distanceOf_setDistance _ _ _ _ _ hd] at hfi
    by_cases e : i = road.destination
    · rw [e]
      exact Relation.ReflTransGen.tail hcc ⟨road, hroad, rfl⟩
    · simp only [e, if_false] at hfi
      exact inv.conn i hi' hfi
  · intro i hi hfi hnf
    have hi' : i < cities.length := by simpa [setDistance] using hi
    rw [hmem]
    by_cases e : i = road.destination
    · exact Or.inl e
    · right
      rw [distanceOf_setDistance _ _ _ _ _ hd] at hfi
      simp only [e, if_false] at hfi
      rw [finalizedOf_setDistance] at hnf
      exact inv.queued i hi' hfi hnf
  · intro i hfi
    have hmono : ∀ k, distanceOf cities k ≠ UINT_MAX →
        distanceOf (setDistance cities road.destination
          ((distanceOf cities current + road.length) % 4294967296) current) k ≠ UINT_MAX := by
      intro k hk
      rw [distanceOf_setDistance _ _ _ _ _ hd]
      split
      · omega
      · exact hk
    have hmonoL := reachedLength_mono roads _ _ hmono
    rw [distanceOf_setDistance _ _ _ _ _ hd] at hfi ⊢
    by_cases e : i = road.destination
    · simp only [e, if_true]
      by_cases hinf : distanceOf cities road.destination = UINT_MAX
      · obtain ⟨r0, hr0, hl, hends, hnot⟩ :=
          cover_uncounted roads cities0 cities hcover current road hroad hinf
        have hdn : distanceOf (setDistance cities road.destination
            ((distanceOf cities current + road.length) % 4294967296) current)
            road.destination ≠ UINT_MAX := by
          rw [distanceOf_setDistance _ _ _ _ _ hd]; simp only [if_true]; omega
        have hboth : distanceOf (setDistance cities road.destination
            ((distanceOf cities current + road.length) % 4294967296) current) r0.source
              ≠ UINT_MAX ∧
            distanceOf (setDistance cities road.destination
            ((distanceOf cities current + road.length) % 4294967296) current) r0.target
              ≠ UINT_MAX := by
          rcases hends with ⟨h1, h2⟩ | ⟨h1, h2⟩
          · rw [h1, h2]; exact ⟨hmono _ hfin, hdn⟩
          · rw [h1, h2]; exact ⟨hdn, hmono _ hfin⟩
        have := reachedLength_gain roads _ _ hmono r0 hr0 hnot hboth
        have := inv.bound current hfin
        omega
      · have := inv.bound road.destination hinf
        omega
    · simp only [e, if_false] at hfi ⊢
      have := inv.bound i hfi
      omega


theorem relaxRoads_inv (cities0 : List City) (built : List RoadRecord)
    (hcover : RoadsCover built cities0) (start current : Nat) :
    ∀ (roads : List RoadConnection) (cities : List City) (pq : List Nat),
    PathInv cities0 built start cities pq →
    current < cities.length → distanceOf cities current ≠ UINT_MAX →
    (∀ road ∈ roads, road ∈ connectionsOf cities0 current) →
    PathInv cities0 built start (relaxRoads current roads (cities, pq)).1
        (relaxRoads current roads (cities, pq)).2 ∧
      (∀ i, distanceOf cities i ≠ UINT_MAX →
        distanceOf (relaxRoads current roads (cities, pq)).1 i ≠ UINT_MAX) ∧
      (∀ i, finalizedOf (relaxRoads current roads (cities, pq)).1 i = finalizedOf cities i) ∧
      pendingCount (relaxRoads current roads (cities, pq)).1 = pendingCount cities ∧
      (relaxRoads current roads (cities, pq)).2.length ≤ pq.length + roads.length ∧
      (totalRoadLength built < UINT_MAX → ∀ road ∈ roads,
        distanceOf (relaxRoads current roads (cities, pq)).1 road.destination ≠ UINT_MAX) := by
  intro roads
  induction roads with
  | nil =>
    intro cities pq inv _ _ _
    refine ⟨by simpa only [relaxRoads] using inv, ?_⟩
    simp [relaxRoads]
  | cons road rest ih =>
    intro cities pq inv hcur hfin hroads
    by_cases hlt : (distanceOf cities current + road.length) % 4294967296
        < distanceOf cities road.destination
    · have hd : road.destination < cities.length := distanceOf_pos_lt (by omega)
      have hle := inv.leMax road.destination
      have hmodle : (distanceOf cities current + road.length) % 4294967296
          ≤ distanceOf cities current + road.length := Nat.mod_le _ _
      have inv1 := pathInv_relax_step cities0 built hcover start current road cities pq inv
        hcur hfin (hroads road (List.mem_cons_self _ _)) hlt
      have hdist : ∀ i, distanceOf (setDistance cities road.destination
          ((distanceOf cities current + road.length) % 4294967296) current) i =
          if i = road.destination then
            (distanceOf cities current + road.length) % 4294967296
          else distanceOf cities i := fun i => distanceOf_setDistance _ _ _ _ _ hd
      obtain ⟨a, b, c, d, e, f⟩ := ih _ _ inv1 (by simpa [setDistance] using hcur)
        (by rw [hdist]; split
            · omega
            · exact hfin)
        (fun r hr => hroads r (List.mem_cons_of_mem _ hr))
      simp only [relaxRoads, if_pos hlt]
      refine ⟨a, ?_, ?_, ?_, ?_, ?_⟩
      · intro i hi
        apply b
        rw [hdist]; split
        · omega
        · exact hi
      · intro i; rw [c, finalizedOf_setDistance]
      · rw [d, pendingCount_setDistance]
      · have := (pqPush_perm (setDistance cities road.destination
          ((distanceOf cities current + road.length) % 4294967296) current) pq
          road.destination).length_eq
        simp only [List.length_cons] at this ⊢
        omega
      · intro hT r hr
        rcases List.mem_cons.mp hr with e1 | hr'
        · subst e1
          apply b
          rw [hdist]; simp only [if_true]; omega
        · exact f hT r hr'
    · obtain ⟨a, b, c, d, e, f⟩ := ih cities pq inv hcur hfin
        (fun r hr => hroads r (List.mem_cons_of_mem _ hr))
      simp only [relaxRoads, if_neg hlt]
      refine ⟨a, b, c, d, by simp only [List.length_cons]; omega, ?_⟩
      intro hT r hr
      rcases List.mem_cons.mp hr with e1 | hr'
      · subst e1
        apply b
        intro hinf
        obtain ⟨r0, hr0, hl, _, hnot⟩ := cover_uncounted built cities0 cities hcover current r
          (hroads r (List.mem_cons_self _ _)) hinf
        have h1 := reachedLength_add_le_total built cities r0 hr0 hnot
        have h2 := inv.bound current hfin
        have hmax : UINT_MAX = 4294967295 := rfl
        have hmod : (distanceOf cities current + r.length) % 4294967296
            = distanceOf cities current + r.length := Nat.mod_eq_of_lt (by omega)
        omega
      · exact f hT r hr'


theorem finalizedOf_eq {cities : List City} {i : Nat} {c : City} (h : cities[i]? = some c) :
    finalizedOf cities i = c.searchInfo.finalized := by
  simp [finalizedOf, h]

theorem dijkstraLoop_spec (cities0 : List City) (built : List RoadRecord)
    (hcover : RoadsCover built cities0) (start : Nat) :
    ∀ (fuel : Nat) (cities : List City) (pq : List Nat),
    PathInv cities0 built start cities pq →
    (totalRoadLength built < UINT_MAX → Relaxed cities0 cities) →
    pq.length + pendingCount cities ≤ fuel →
    ∃ out, dijkstraLoop fuel cities pq = some out ∧ PathInv cities0 built start out [] ∧
      (totalRoadLength built < UINT_MAX → Relaxed cities0 out) := by
  intro fuel
  induction fuel with
  | zero =>
    intro cities pq inv hrel hfuel
    have : pq = [] := List.length_eq_zero.mp (by omega)
    subst this
    exact ⟨cities, by simp [dijkstraLoop], inv, hrel⟩
  | succ fuel ih =>
    intro cities pq inv hrel hfuel
    cases pq with
    | nil => exact ⟨cities, by simp [dijkstraLoop], inv, hrel⟩
    | cons current rest =>
      have hcur : current < cities.length := inv.inRange current (by simp)
      have hget : cities[current]? = some cities[current] := List.getElem?_eq_getElem hcur
      have hperm := pqPop_perm cities current rest
      have hplen := hperm.length_eq
      have hcfin : distanceOf cities current ≠ UINT_MAX := inv.queuedFinite current (by simp)
      by_cases hf : cities[current].searchInfo.finalized = true
      · have inv1 : PathInv cities0 built start cities (pqPop cities (current :: rest)) := by
          refine ⟨inv.frame, inv.leMax, ?_, ?_, inv.startFinite, inv.conn, ?_, inv.bound⟩
          · intro i hi
            exact inv.inRange i (List.mem_cons_of_mem _ (hperm.mem_iff.mp hi))
          · intro i hi
            exact inv.queuedFinite i (List.mem_cons_of_mem _ (hperm.mem_iff.mp hi))
          · intro i hi hfi hnf
            rcases List.mem_cons.mp (inv.queued i hi hfi hnf) with e | h
            · subst e
              rw [finalizedOf_eq hget, hf] at hnf
              exact Bool.noConfusion hnf
            · exact hperm.mem_iff.mpr h
        obtain ⟨out, h1, h2, h3⟩ := ih cities _ inv1 hrel
          (by simp only [List.length_cons] at hfuel; omega)
        exact ⟨out, by simp only [dijkstraLoop, hget, hf, if_true]; exact h1, h2, h3⟩
      · have hf' : cities[current].searchInfo.finalized = false := by
          cases h : cities[current].searchInfo.finalized
          · rfl
          · exact absurd h hf
        have hlen1 : (setFinalized cities current).length = cities.length := by
          simp [setFinalized]
        have hfo : ∀ i, finalizedOf (setFinalized cities current) i =
            if i = current then true else finalizedOf cities i :=
          fun i => finalizedOf_setFinalized _ _ _ hcur
        have hmono1 : ∀ k, distanceOf cities k ≠ UINT_MAX →
            distanceOf (setFinalized cities current) k ≠ UINT_MAX := by
          intro k hk; rw [distanceOf_setFinalized]; exact hk
        have hPC := pendingCount_setFinalized cities current _ hget hf'
        have inv1 : PathInv cities0 built start (setFinalized cities current)
            (pqPop cities (current :: rest)) := by
          refine ⟨?_, ?_, ?_, ?_, ?_, ?_, ?_, ?_⟩
          · rw [setFinalized_reset]; exact inv.frame
          · intro i; rw [distanceOf_setFinalized]; exact inv.leMax i
          · intro i hi
            rw [hlen1]
            exact inv.inRange i (List.mem_cons_of_mem _ (hperm.mem_iff.mp hi))
          · intro i hi
            rw [distanceOf_setFinalized]
            exact inv.queuedFinite i (List.mem_cons_of_mem _ (hperm.mem_iff.mp hi))
          · rw [hlen1, distanceOf_setFinalized]; exact inv.startFinite
          · intro i hi hfi
            rw [hlen1] at hi
            rw [distanceOf_setFinalized] at hfi
            exact inv.conn i hi hfi
          · intro i hi hfi hnf
            rw [hlen1] at hi
            rw [distanceOf_setFinalized] at hfi
            rw [hfo] at hnf
            by_cases e : i = current
            · simp [e] at hnf
            · simp only [e, if_false] at hnf
              rcases List.mem_cons.mp (inv.queued i hi hfi hnf) with e' | h
              · exact absurd e' e
              · exact hperm.mem_iff.mpr h
          · intro i hfi
            rw [distanceOf_setFinalized] at hfi ⊢
            have := inv.bound i hfi
            have := reachedLength_mono built _ _ hmono1
            omega
        have hconnOf : connectionsOf cities0 current = cities[current].connections := by
          rw [← connectionsOf_of_reset_eq inv.frame, connectionsOf_eq hget]
        obtain ⟨a, b, c, d, e, f⟩ := relaxRoads_inv cities0 built hcover start current
          cities[current].connections (setFinalized cities current)
          (pqPop cities (current :: rest)) inv1 (by omega)
          (by rw [distanceOf_setFinalized]; exact hcfin)
          (by intro r hr; rw [hconnOf]; exact hr)
        have hrel1 : totalRoadLength built < UINT_MAX → Relaxed cities0
            (relaxRoads current cities[current].connections
              (setFinalized cities current, pqPop cities (current :: rest))).1 := by
          intro hT i hi hfi road hr
          rw [c, hfo] at hfi
          by_cases e1 : i = current
          · subst e1
            rw [hconnOf] at hr
            exact f hT road hr
          · simp only [e1, if_false] at hfi
            have hi' : i < cities.length := by
              have := length_of_reset_eq (a.frame.trans inv.frame.symm)
              omega
            apply b
            rw [distanceOf_setFinalized]
            exact hrel hT i hi' hfi road hr
        obtain ⟨out, h1, h2, h3⟩ := ih _ _ a hrel1
          (by simp only [List.length_cons] at hfuel; omega)
        exact ⟨out, by simp only [dijkstraLoop, hget, hf']; exact h1, h2, h3⟩


theorem distanceOf_reset (cities : List City) (i : Nat) :
    distanceOf (cities.map City.resetSearchInfo) i
      = if i < cities.length then UINT_MAX else 0 := by
  unfold distanceOf
  by_cases h : i < cities.length
  · simp [List.getElem?_eq_getElem h, City.resetSearchInfo, SearchInfo.reset, h]
  · rw [List.getElem?_eq_none (by simpa using h)]
    simp [h]

theorem finalizedOf_reset (cities : List City) (i : Nat) :
    finalizedOf (cities.map City.resetSearchInfo) i = false := by
  unfold finalizedOf
  by_cases h : i < cities.length
  · simp [List.getElem?_eq_getElem h, City.resetSearchInfo, SearchInfo.reset]
  · rw [List.getElem?_eq_none (by simpa using h)]

theorem pendingCount_reset (cities : List City) :
    pendingCount (cities.map City.resetSearchInfo) = connectionCount cities := by
  simp [pendingCount, connectionCount, List.map_map, Function.comp_def,
    City.resetSearchInfo, SearchInfo.reset]

theorem distanceOf_setStartDistance (cities : List City) (s i : Nat) (hs : s < cities.length) :
    distanceOf (setStartDistance cities s) i = if i = s then 0 else distanceOf cities i := by
  unfold distanceOf setStartDistance
  rw [List.getElem?_modify]
  by_cases h : i = s
  · subst h; simp [List.getElem?_eq_getElem hs]
  · have : ¬ s = i := fun e => h e.symm
    cases cities[i]? <;> simp [h, this]

theorem finalizedOf_setStartDistance (cities : List City) (s i : Nat) :
    finalizedOf (setStartDistance cities s) i = finalizedOf cities i := by
  unfold finalizedOf setStartDistance
  rw [List.getElem?_modify]
  cases cities[i]? with
  | none => rfl
  | some c => by_cases h : s = i <;> simp [h]

theorem pendingCount_setStartDistance (cities : List City) (s : Nat) :
    pendingCount (setStartDistance cities s) = pendingCount cities := by
  unfold pendingCount setStartDistance
  rw [modify_map_preserve]
  intro c; rfl

theorem calculateShortestPaths_spec (net : CityNetwork) (built : List RoadRecord)
    (hcover : RoadsCover built net.cities) (startCity : String) (start : Nat)
    (h : net.findCity startCity = some start) :
    ∃ out, net.calculateShortestPaths startCity = some (collectDistances out [], ⟨out⟩) ∧
      PathInv net.cities built start out [] ∧
      (totalRoadLength built < UINT_MAX → Relaxed net.cities out) := by
  have hs : start < net.cities.length := findCityIn_lt _ _ _ h
  have hs' : start < (net.cities.map City.resetSearchInfo).length := by simpa using hs
  have h' : net.resetSearchData.findCity startCity = some start := by
    rw [findCity_resetSearchData]; exact h
  have hmax : UINT_MAX = 4294967295 := rfl
  have hdist : ∀ i, distanceOf (setStartDistance net.resetSearchData.cities start) i =
      if i = start then 0 else if i < net.cities.length then UINT_MAX else 0 := by
    intro i
    simp only [CityNetwork.resetSearchData]
    rw [distanceOf_setStartDistance _ _ _ hs', distanceOf_reset]
  have hfo : ∀ i, finalizedOf (setStartDistance net.resetSearchData.cities start) i = false := by
    intro i
    simp only [CityNetwork.resetSearchData]
    rw [finalizedOf_setStartDistance, finalizedOf_reset]
  have hlen : (setStartDistance net.resetSearchData.cities start).length
      = net.cities.length := by
    simp [setStartDistance, CityNetwork.resetSearchData]
  have hmem : ∀ i, i ∈ pqPush (setStartDistance net.resetSearchData.cities start) [] start
      ↔ i = start := by
    intro i; rw [(pqPush_perm _ _ _).mem_iff]; simp
  have inv0 : PathInv net.cities built start (setStartDistance net.resetSearchData.cities start)
      (pqPush (setStartDistance net.resetSearchData.cities start) [] start) := by
    refine ⟨?_, ?_, ?_, ?_, ?_, ?_, ?_, ?_⟩
    · rw [setStartDistance_reset]; exact reset_idem _
    · intro i; rw [hdist]; split
      · omega
      · split <;> omega
    · intro i hi; rw [(hmem i).mp hi, hlen]; exact hs
    · intro i hi; rw [(hmem i).mp hi, hdist]; simp [hmax]
    · rw [hlen, hdist]; exact ⟨hs, by simp [hmax]⟩
    · intro i hi hfi
      rw [hlen] at hi
      rw [hdist] at hfi
      by_cases e : i = start
      · rw [e]; exact Relation.ReflTransGen.refl
      · simp [e, hi] at hfi
    · intro i hi hfi _
      rw [hlen] at hi
      rw [hdist] at hfi
      by_cases e : i = start
      · exact (hmem i).mpr e
      · simp [e, hi] at hfi
    · intro i hfi
      rw [hdist] at hfi ⊢
      by_cases e : i = start
      · simp [e]
      · simp only [e, if_false] at hfi ⊢
        split
        · rename_i hi; simp [hi] at hfi
        · exact Nat.zero_le _
  obtain ⟨out, h1, h2, h3⟩ := dijkstraLoop_spec net.cities built hcover start
    (connectionCount net.cities + 1) _ _ inv0
    (by intro _ i _ hfi; rw [hfo] at hfi; exact Bool.noConfusion hfi)
    (by
      have := (pqPush_perm (setStartDistance net.resetSearchData.cities start) [] start).length_eq
      rw [this, pendingCount_setStartDistance]
      simp only [CityNetwork.resetSearchData, pendingCount_reset, List.length_cons,
        List.length_nil]
      omega)
  exact ⟨out, by simp [CityNetwork.calculateShortestPaths, h', h1], h2, h3⟩

theorem entriesOf_cover (cities : List City) : RoadsCover (entriesOf cities) cities := by
  intro i e he
  left
  have hi : i < cities.length := by
    by_contra hn
    unfold connectionsOf at he
    rw [List.getElem?_eq_none (by omega)] at he
    simp at he
  unfold entriesOf
  rw [List.mem_flatMap]
  exact ⟨i, List.mem_range.mpr hi, List.mem_map.mpr ⟨e, he, rfl⟩⟩

theorem calculateShortestPaths_total (net : CityNetwork) (s : String) :
    ∃ m net1, net.calculateShortestPaths s = some (m, net1) ∧
      net1.resetSearchData = net.resetSearchData := by
  cases h : net.findCity s with
  | none =>
    exact ⟨[], net.resetSearchData, (query_unknown_start net s h).2,
      resetSearchData_idem net⟩
  | some start =>
    obtain ⟨out, hrun, inv, _⟩ := calculateShortestPaths_spec net (entriesOf net.cities)
      (entriesOf_cover net.cities) s start h
    exact ⟨_, ⟨out⟩, hrun, by simp [CityNetwork.resetSearchData, inv.frame]⟩

theorem lexLess_total : ∀ (a b : List Char), lexLess a b = false → lexLess b a = false →
    a = b := by
  intro a
  induction a with
  | nil =>
    intro b h1 h2
    cases b with
    | nil => rfl
    | cons y ys => simp [lexLess] at h1
  | cons x xs ih =>
    intro b h1 h2
    cases b with
    | nil => simp [lexLess] at h2
    | cons y ys =>
      simp only [lexLess] at h1 h2
      by_cases hxy : x.toNat < y.toNat
      · simp [hxy] at h1
      · by_cases hyx : y.toNat < x.toNat
        · simp [hyx] at h2
        · simp only [hxy, hyx, if_false] at h1 h2
          have hn : x.toNat = y.toNat := by omega
          have hc : x = y := by
            apply Char.ext
            apply UInt32.ext
            exact hn
          rw [hc, ih ys h1 h2]

theorem mem_keys_mapAssign : ∀ (m : List (String × Nat)) (key : String) (value : Nat)
    (k : String), k ∈ (mapAssign m key value).map Prod.fst ↔ k = key ∨ k ∈ m.map Prod.fst := by
  intro m
  induction m with
  | nil => intro key value k; simp [mapAssign]
  | cons e rest ih =>
    intro key value k
    obtain ⟨k0, v0⟩ := e
    simp only [mapAssign]
    by_cases h1 : lexLess key.data k0.data = true
    · simp [h1]
    · by_cases h2 : lexLess k0.data key.data = true
      · simp only [h1, h2, if_true, Bool.false_eq_true, if_false, List.map_cons, List.mem_cons,
          ih]
        tauto
      · have : k0 = key := by
          apply String.ext
          exact (lexLess_total _ _ (by simpa using h1) (by simpa using h2)).symm
        subst this
        simp [h1]

theorem mem_keys_collectDistances : ∀ (cities : List City) (acc : List (String × Nat))
    (k : String), k ∈ (collectDistances cities acc).map Prod.fst ↔
      k ∈ acc.map Prod.fst ∨ ∃ c ∈ cities, c.searchInfo.distance ≠ UINT_MAX ∧ c.name = k := by
  intro cities
  induction cities with
  | nil => intro acc k; simp [collectDistances]
  | cons c cs ih =>
    intro acc k
    simp only [collectDistances]
    by_cases h : c.searchInfo.distance ≠ UINT_MAX
    · rw [if_pos h, ih, mem_keys_mapAssign]
      constructor
      · rintro ((e | h1) | ⟨c', hc', h2⟩)
        · exact Or.inr ⟨c, List.mem_cons_self _ _, h, e.symm⟩
        · exact Or.inl h1
        · exact Or.inr ⟨c', List.mem_cons_of_mem _ hc', h2⟩
      · rintro (h1 | ⟨c', hc', h2⟩)
        · exact Or.inl (Or.inr h1)
        · rcases List.mem_cons.mp hc' with e | hc''
          · subst e; exact Or.inl (Or.inl h2.2.symm)
          · exact Or.inr ⟨c', hc'', h2⟩
    · rw [if_neg h, ih]
      constructor
      · rintro (h1 | ⟨c', hc', h2⟩)
        · exact Or.inl h1
        · exact Or.inr ⟨c', List.mem_cons_of_mem _ hc', h2⟩
      · rintro (h1 | ⟨c', hc', h2⟩)
        · exact Or.inl h1
        · rcases List.mem_cons.mp hc' with e | hc''
          · subst e; exact absurd h2.1 h
          · exact Or.inr ⟨c', hc'', h2⟩

theorem mem_keys_iff (cities : List City) (k : String) :
    k ∈ (collectDistances cities []).map Prod.fst ↔
      ∃ i, i < cities.length ∧ distanceOf cities i ≠ UINT_MAX ∧ nameOf cities i = some k := by
  rw [mem_keys_collectDistances]
  simp only [List.map_nil, List.not_mem_nil, false_or]
  constructor
  · rintro ⟨c, hc, h1, h2⟩
    obtain ⟨i, hi, hget⟩ := List.getElem_of_mem hc
    have hg : cities[i]? = some c := by rw [List.getElem?_eq_getElem hi, hget]
    exact ⟨i, hi, by simpa [distanceOf, hg] using h1, by simp [nameOf, hg, h2]⟩
  · rintro ⟨i, hi, h1, h2⟩
    have hg : cities[i]? = some cities[i] := List.getElem?_eq_getElem hi
    refine ⟨cities[i], List.getElem_mem _, by simpa [distanceOf, hg] using h1, ?_⟩
    simpa [nameOf, hg] using h2


theorem applyTracked_fst (s : CityNetwork × List RoadRecord) (op : BuildOp) :
    (BuildOp.applyTracked s op).1 = BuildOp.apply s.1 op := by
  cases op with
  | addCity name => rfl
  | addRoad a b w =>
    simp only [BuildOp.applyTracked, BuildOp.apply]
    cases s.1.findCity a <;> cases s.1.findCity b <;> rfl

theorem foldl_applyTracked_fst (ops : List BuildOp) :
    ∀ s : CityNetwork × List RoadRecord,
      (ops.foldl BuildOp.applyTracked s).1 = ops.foldl BuildOp.apply s.1 := by
  induction ops with
  | nil => intro s; rfl
  | cons op ops ih =>
    intro s
    simp only [List.foldl_cons]
    rw [ih, applyTracked_fst]

theorem roadsOf_snoc (ops : List BuildOp) (op : BuildOp) :
    roadsOf (ops ++ [op]) = (BuildOp.applyTracked (build ops, roadsOf ops) op).2 := by
  have h := foldl_applyTracked_fst ops (CityNetwork.empty, [])
  have h2 : ops.foldl BuildOp.applyTracked (CityNetwork.empty, []) = (build ops, roadsOf ops) :=
    Prod.ext h rfl
  simp only [roadsOf, List.foldl_append, List.foldl_cons, List.foldl_nil]
  rw [h2]

theorem mem_connectionsOf_addRoad (net : CityNetwork) (a b : String) (w i j k : Nat)
    (ha : net.findCity a = some i) (hb : net.findCity b = some j) (e : RoadConnection)
    (he : e ∈ connectionsOf (net.addRoad a b w).cities k) :
    e ∈ connectionsOf net.cities k ∨ (k = i ∧ e = ⟨j, w % 4294967296⟩) ∨
      (k = j ∧ e = ⟨i, w % 4294967296⟩) := by
  have hi := findCityIn_lt _ _ _ ha
  have hj := findCityIn_lt _ _ _ hb
  have hj' : j < (emplaceConnection net.cities i j (w % 4294967296)).length := by
    simpa [emplaceConnection] using hj
  have hcities : (net.addRoad a b w).cities =
      emplaceConnection (emplaceConnection net.cities i j (w % 4294967296)) j i
        (w % 4294967296) := by
    simp [CityNetwork.addRoad, ha, hb]
  rw [hcities, connectionsOf_emplace _ _ _ _ _ hj'] at he
  by_cases hkj : k = j
  · rw [if_pos hkj, connectionsOf_emplace _ _ _ _ _ hi] at he
    by_cases hji : j = i
    · rw [if_pos hji] at he
      simp only [List.mem_append, List.mem_singleton] at he
      rcases he with (he | he) | he
      · left; rw [hkj, hji]; exact he
      · right; left; exact ⟨by rw [hkj, hji], he⟩
      · right; right; exact ⟨hkj, he⟩
    · rw [if_neg hji] at he
      simp only [List.mem_append, List.mem_singleton] at he
      rcases he with he | he
      · left; rw [hkj]; exact he
      · right; right; exact ⟨hkj, he⟩
  · rw [if_neg hkj, connectionsOf_emplace _ _ _ _ _ hi] at he
    by_cases hki : k = i
    · rw [if_pos hki] at he
      simp only [List.mem_append, List.mem_singleton] at he
      rcases he with he | he
      · left; rw [hki]; exact he
      · right; left; exact ⟨hki, he⟩
    · rw [if_neg hki] at he
      exact Or.inl he

theorem build_cover (ops : List BuildOp) : RoadsCover (roadsOf ops) (build ops).cities := by
  induction ops using List.reverseRecOn with
  | nil => intro i e he; simp [build, CityNetwork.empty, connectionsOf] at he
  | append_singleton ops op ih =>
    rw [build_snoc, roadsOf_snoc]
    cases op with
    | addCity name =>
      intro i e he
      simp only [BuildOp.apply, CityNetwork.addCity, connectionsOf_append_new] at he
      exact ih i e he
    | addRoad a b w =>
      simp only [BuildOp.apply, BuildOp.applyTracked]
      cases ha : (build ops).findCity a with
      | none =>
        have : (build ops).addRoad a b w = build ops := by simp [CityNetwork.addRoad, ha]
        rw [this]; exact ih
      | some i =>
        cases hb : (build ops).findCity b with
        | none =>
          have : (build ops).addRoad a b w = build ops := by
            simp [CityNetwork.addRoad, ha, hb]
          rw [this]; exact ih
        | some j =>
          intro k e he
          simp only [List.mem_append, List.mem_singleton]
          rcases mem_connectionsOf_addRoad _ a b w i j k ha hb e he with h | ⟨h1, h2⟩ | ⟨h1, h2⟩
          · rcases ih k e h with h' | h'
            · exact Or.inl (Or.inl h')
            · exact Or.inr (Or.inl h')
          · left; right; rw [h1, h2]
          · right; right; rw [h1, h2]

theorem connected_finite (cities0 out : List City) (built : List RoadRecord) (start i : Nat)
    (inv : PathInv cities0 built start out []) (hrel : Relaxed cities0 out)
    (hwf : WellFormed cities0) (hc : Connected cities0 start i) :
    i < out.length ∧ distanceOf out i ≠ UINT_MAX := by
  induction hc with
  | refl => exact inv.startFinite
  | @tail j k _ hroad ih =>
    obtain ⟨road, hr, hd⟩ := hroad
    obtain ⟨nm, hnm⟩ := hwf _ road hr
    have hlt := findCityIn_lt _ _ _ hnm
    have hlen := length_of_reset_eq inv.frame
    rw [← hd]
    refine ⟨by omega, ?_⟩
    have hfin : finalizedOf out j = true := by
      cases hf : finalizedOf out j with
      | true => rfl
      | false => exact absurd (inv.queued j ih.1 ih.2 hf) (List.not_mem_nil _)
    exact hrel j ih.1 hfin road hr

/-- C3 (amended): for every network built from empty by `addCity`/`addRoad` and every
start name that names a city, every key of the map returned by `calculateShortestPaths`
names a city connected to the start and is returned by `findReachableCities`; and when
the lengths of the roads sum to less than `2^32 - 1`, the key set is exactly the set of
names of the connected cities, the set of names that `findReachableCities` returns. -/
theorem shortestPaths_keys (ops : List BuildOp) (startCity : String) (start : Nat)
    (h : (build ops).findCity startCity = some start) :
    ∃ m net1 l net2, (build ops).calculateShortestPaths startCity = some (m, net1) ∧
      (build ops).findReachableCities startCity = some (l, net2) ∧
      (∀ key ∈ m.map Prod.fst, ∃ i, Connected (build ops).cities start i ∧
        nameOf (build ops).cities i = some key) ∧
      (∀ key ∈ m.map Prod.fst, key ∈ l) ∧
      (totalRoadLength (roadsOf ops) < UINT_MAX →
        (∀ key, key ∈ m.map Prod.fst ↔ ∃ i, Connected (build ops).cities start i ∧
          nameOf (build ops).cities i = some key) ∧
        (∀ key, key ∈ m.map Prod.fst ↔ key ∈ l)) := by
  have hwf := build_wellFormed ops
  obtain ⟨out, hrun, inv, hrel⟩ := calculateShortestPaths_spec (build ops) (roadsOf ops)
    (build_cover ops) startCity start h
  obtain ⟨order, l, net2, hrun2, hres, _, _, hiff, _, _⟩ :=
    findReachableCities_sound (build ops) hwf startCity start h
  have hlen := length_of_reset_eq inv.frame
  have hl : ∀ key, key ∈ l ↔ ∃ i, Connected (build ops).cities start i ∧
      nameOf (build ops).cities i = some key := by
    intro key
    constructor
    · intro hk
      have : some key ∈ l.map some := List.mem_map_of_mem _ hk
      rw [hres] at this
      obtain ⟨i, hi, hin⟩ := List.mem_map.mp this
      exact ⟨i, (hiff i).mp hi, hin⟩
    · rintro ⟨i, hc, hn⟩
      have : nameOf (build ops).cities i ∈ order.map (nameOf (build ops).cities) :=
        List.mem_map_of_mem _ ((hiff i).mpr hc)
      rw [← hres, hn] at this
      simpa using this
  have hsub : ∀ key ∈ (collectDistances out []).map Prod.fst,
      ∃ i, Connected (build ops).cities start i ∧ nameOf (build ops).cities i = some key := by
    intro key hk
    obtain ⟨i, hi, hfi, hn⟩ := (mem_keys_iff out key).mp hk
    exact ⟨i, inv.conn i hi hfi, by rw [← nameOf_of_reset_eq inv.frame]; exact hn⟩
  have hsup : totalRoadLength (roadsOf ops) < UINT_MAX →
      ∀ key, (∃ i, Connected (build ops).cities start i ∧
        nameOf (build ops).cities i = some key) → key ∈ (collectDistances out []).map Prod.fst := by
    rintro hT key ⟨i, hc, hn⟩
    have := connected_finite _ out _ start i inv (hrel hT) hwf hc
    exact (mem_keys_iff out key).mpr
      ⟨i, this.1, this.2, by rw [nameOf_of_reset_eq inv.frame]; exact hn⟩
  refine ⟨_, _, l, net2, hrun, hrun2, hsub, ?_, ?_⟩
  · intro key hk; exact (hl key).mpr (hsub key hk)
  · intro hT
    refine ⟨fun key => ⟨hsub key, hsup hT key⟩, fun key => ?_⟩
    rw [hl]
    exact ⟨hsub key, hsup hT key⟩

theorem shortestPaths_keys_witness :
    ∃ m net1 l net2, (build demoOps).calculateShortestPaths "Metropolis" = some (m, net1) ∧
      (build demoOps).findReachableCities "Metropolis" = some (l, net2) ∧
      (∀ key ∈ m.map Prod.fst, ∃ i, Connected (build demoOps).cities 0 i ∧
        nameOf (build demoOps).cities i = some key) ∧
      (∀ key ∈ m.map Prod.fst, key ∈ l) ∧
      (totalRoadLength (roadsOf demoOps) < UINT_MAX →
        (∀ key, key ∈ m.map Prod.fst ↔ ∃ i, Connected (build demoOps).cities 0 i ∧
          nameOf (build demoOps).cities i = some key) ∧
        (∀ key, key ∈ m.map Prod.fst ↔ key ∈ l)) :=
  shortestPaths_keys demoOps "Metropolis" 0 (by decide)

/-- C3 fails as stated: with one road of length `2^32 - 1` between A and B, the map
returned for start A has the single key A, although B is connected to A and
`findReachableCities` returns A and B. -/
theorem shortestPaths_keys_counterexample :
    (build sentinelOps).findCity "A" = some 0 ∧
    ((build sentinelOps).calculateShortestPaths "A").map Prod.fst = some [("A", 0)] ∧
    ((build sentinelOps).findReachableCities "A").map Prod.fst = some ["A", "B"] ∧
    connectionsOf (build sentinelOps).cities 0 = [⟨1, 4294967295⟩] ∧
    nameOf (build sentinelOps).cities 1 = some "B" := by
  refine ⟨?_, ?_, ?_, ?_, ?_⟩ <;> decide

/-- C1, evaluation of the code where it departs from the claim.  On `staleHeapNetwork`
(distinct names, total road length 38) the map returned for start A gives B the distance
11 although the roads A-E, E-C, C-D, D-B have total length 10.  On `wrapNetwork`
(distinct names, total road length `2^32 - 2`) the map gives B the distance `2^31 - 3`
although the only road from A leads to B and has length `2^31 - 1`. -/
theorem shortestPaths_not_minimal :
    totalRoadLength (roadsOf staleHeapOps) = 38 ∧
    ((build staleHeapOps).calculateShortestPaths "A").map Prod.fst =
      some [("A", 0), ("B", 11), ("C", 4), ("D", 7), ("E", 1)] ∧
    Route (build staleHeapOps).cities 0 1 10 ∧
    totalRoadLength (roadsOf wrapOps) = 4294967294 ∧
    ((build wrapOps).calculateShortestPaths "A").map Prod.fst =
      some [("A", 0), ("B", 2147483645), ("C", 4294967294)] ∧
    connectionsOf (build wrapOps).cities 0 = [⟨1, 2147483647⟩] := by
  refine ⟨by decide, by decide, ?_, by decide, by decide, by decide⟩
  exact Route.step ⟨4, 1⟩ (by decide) (Route.step ⟨2, 3⟩ (by decide)
    (Route.step ⟨3, 3⟩ (by decide) (Route.step ⟨1, 3⟩ (by decide) (Route.stay 1))))


/-! ## Later claims: lookup, termination, construction invariants -/

theorem findCityIn_before : ∀ (cities : List City) (name : String) (i : Nat),
    findCityIn cities name = some i → ∀ j, j < i → nameOf cities j ≠ some name := by
  intro cities
  induction cities with
  | nil => intro name i h; simp [findCityIn] at h
  | cons c cs ih =>
    intro name i h j hj
    simp only [findCityIn] at h
    by_cases hc : c.name = name
    · simp [hc] at h; omega
    · simp only [hc, if_false] at h
      cases hf : findCityIn cs name with
      | none => simp [hf] at h
      | some k =>
        simp [hf] at h
        subst h
        cases j with
        | zero => simpa [nameOf] using hc
        | succ j =>
          have := ih name k hf j (by omega)
          simpa [nameOf] using this

theorem findCityIn_eq_none (cities : List City) (name : String) :
    findCityIn cities name = none ↔ ∀ c ∈ cities, c.name ≠ name := by
  induction cities with
  | nil => simp [findCityIn]
  | cons c cs ih =>
    simp only [findCityIn]
    by_cases hc : c.name = name
    · simp [hc]
    · simp [hc, ih]

/-- C12: `findCity(name)` returns the earliest-added city whose name equals `name` (the
city found carries the name and no earlier city does), it returns "not found" exactly
when no city has that name, and `addCity(n)` on a network that already has a city named
`n` adds one city and leaves `findCity(n)` at the earlier city. -/
theorem findCity_first (net : CityNetwork) (name : String) :
    (∀ i, net.findCity name = some i →
      nameOf net.cities i = some name ∧ ∀ j, j < i → nameOf net.cities j ≠ some name) ∧
    (net.findCity name = none ↔ ∀ c ∈ net.cities, c.name ≠ name) ∧
    (∀ i, net.findCity name = some i →
      (net.addCity name).cities.length = net.cities.length + 1 ∧
      (net.addCity name).findCity name = some i) := by
  refine ⟨fun i h => ⟨findCityIn_name _ _ _ h, findCityIn_before _ _ _ h⟩,
    findCityIn_eq_none _ _, fun i h => ⟨by simp [CityNetwork.addCity], ?_⟩⟩
  exact findCityIn_append _ _ _ _ h

theorem distanceSum_setDistance (cities : List City) (d v cur : Nat)
    (hlt : v < distanceOf cities d) :
    distanceSum (setDistance cities d v cur) + 1 ≤ distanceSum cities := by
  have hd : d < cities.length := distanceOf_pos_lt (by omega)
  have hget : cities[d]? = some cities[d] := List.getElem?_eq_getElem hd
  have := modify_map_sum (fun c => c.searchInfo.distance)
    (fun c => ⟨c.name, c.connections, ⟨c.searchInfo.discovered, v, some cur,
      c.searchInfo.finalized⟩⟩) cities d _ hget
  simp only [distanceOf, hget] at hlt
  simp only [distanceSum, setDistance]
  simp only at this
  omega

theorem relaxRoads_pushes (current : Nat) :
    ∀ (roads : List RoadConnection) (cities : List City) (pq : List Nat),
    (relaxRoads current roads (cities, pq)).2.length
        + distanceSum (relaxRoads current roads (cities, pq)).1
      ≤ pq.length + distanceSum cities := by
  intro roads
  induction roads with
  | nil => intro cities pq; simp [relaxRoads]
  | cons road rest ih =>
    intro cities pq
    by_cases hlt : (distanceOf cities current + road.length) % 4294967296
        < distanceOf cities road.destination
    · simp only [relaxRoads, if_pos hlt]
      have h1 := ih (setDistance cities road.destination
          ((distanceOf cities current + road.length) % 4294967296) current)
        (pqPush (setDistance cities road.destination
          ((distanceOf cities current + road.length) % 4294967296) current) pq
          road.destination)
      have h2 := (pqPush_perm (setDistance cities road.destination
          ((distanceOf cities current + road.length) % 4294967296) current) pq
          road.destination).length_eq
      have h3 := distanceSum_setDistance cities road.destination _ current hlt
      simp only [List.length_cons] at h2
      omega
    · simp only [relaxRoads, if_neg hlt]
      exact ih cities pq

theorem relaxRoads_distance_le (current : Nat) :
    ∀ (roads : List RoadConnection) (cities : List City) (pq : List Nat) (i : Nat),
    distanceOf (relaxRoads current roads (cities, pq)).1 i ≤ distanceOf cities i := by
  intro roads
  induction roads with
  | nil => intro cities pq i; simp [relaxRoads]
  | cons road rest ih =>
    intro cities pq i
    by_cases hlt : (distanceOf cities current + road.length) % 4294967296
        < distanceOf cities road.destination
    · simp only [relaxRoads, if_pos hlt]
      have hd : road.destination < cities.length := distanceOf_pos_lt (by omega)
      refine Nat.le_trans (ih _ _ i) ?_
      rw [distanceOf_setDistance _ _ _ _ _ hd]
      split
      · rename_i e; rw [e]; omega
      · exact Nat.le_refl _
    · simp only [relaxRoads, if_neg hlt]
      exact ih cities pq i

theorem dijkstraLoop_distance_le : ∀ (fuel : Nat) (cities : List City) (pq : List Nat)
    (out : List City), dijkstraLoop fuel cities pq = some out →
    ∀ i, distanceOf out i ≤ distanceOf cities i := by
  intro fuel
  induction fuel with
  | zero =>
    intro cities pq out h i
    cases pq with
    | nil => simp [dijkstraLoop] at h; subst h; exact Nat.le_refl _
    | cons a as => simp [dijkstraLoop] at h
  | succ fuel ih =>
    intro cities pq out h i
    cases pq with
    | nil => simp [dijkstraLoop] at h; subst h; exact Nat.le_refl _
    | cons current rest =>
      simp only [dijkstraLoop] at h
      cases hget : cities[current]? with
      | none => simp [hget] at h
      | some c =>
        simp only [hget] at h
        by_cases hf : c.searchInfo.finalized = true
        · simp only [hf, if_true] at h
          exact ih _ _ _ h i
        · simp only [hf, if_false] at h
          refine Nat.le_trans (ih _ _ _ h i) ?_
          refine Nat.le_trans (relaxRoads_distance_le _ _ _ _ i) ?_
          rw [distanceOf_setFinalized]

theorem dijkstraLoop_more_fuel : ∀ (fuel : Nat) (cities : List City) (pq : List Nat)
    (out : List City), dijkstraLoop fuel cities pq = some out →
    dijkstraLoop (fuel + 1) cities pq = some out := by
  intro fuel
  induction fuel with
  | zero =>
    intro cities pq out h
    cases pq with
    | nil => simpa [dijkstraLoop] using h
    | cons a as => simp [dijkstraLoop] at h
  | succ fuel ih =>
    intro cities pq out h
    cases pq with
    | nil => simpa [dijkstraLoop] using h
    | cons current rest =>
      rw [dijkstraLoop] at h
      rw [dijkstraLoop]
      cases hget : cities[current]? with
      | none => simp [hget] at h
      | some c =>
        simp only [hget] at h ⊢
        by_cases hf : c.searchInfo.finalized = true
        · simp only [hf, if_true] at h ⊢
          exact ih _ _ _ h
        · simp only [hf, if_false] at h ⊢
          exact ih _ _ _ h

theorem dijkstraLoop_fuel_le (fuel fuel' : Nat) (cities : List City) (pq : List Nat)
    (out : List City) (h : dijkstraLoop fuel cities pq = some out) (hle : fuel ≤ fuel') :
    dijkstraLoop fuel' cities pq = some out := by
  induction hle with
  | refl => exact h
  | step _ ih => exact dijkstraLoop_more_fuel _ _ _ _ ih

theorem calculateShortestPaths_loop (net : CityNetwork) (startCity : String) (start : Nat)
    (h : net.findCity startCity = some start) (out : List City) (m : List (String × Nat))
    (hrun : net.calculateShortestPaths startCity = some (m, ⟨out⟩)) :
    dijkstraLoop (connectionCount net.cities + 1)
      (setStartDistance net.resetSearchData.cities start)
      (pqPush (setStartDistance net.resetSearchData.cities start) [] start) = some out := by
  have h' : net.resetSearchData.findCity startCity = some start := by
    rw [findCity_resetSearchData]; exact h
  simp only [CityNetwork.calculateShortestPaths, h'] at hrun
  cases hl : dijkstraLoop (connectionCount net.cities + 1)
      (setStartDistance net.resetSearchData.cities start)
      (pqPush (setStartDistance net.resetSearchData.cities start) [] start) with
  | none => simp [hl] at hrun
  | some o =>
    simp [hl] at hrun
    rw [hrun.2]

/-- C18: `calculateShortestPaths` terminates on every network, whatever the road lengths
and the start name: it returns a map; from a start city the loop ends within
`connectionCount + 1` iterations and any larger iteration budget gives the same final
state; and in the relaxation loop every push is paid for by a strict decrease of a
distance field (pushes plus the sum of the distance fields never grows). -/
theorem calculateShortestPaths_terminates (net : CityNetwork) (startCity : String) :
    (∃ m net', net.calculateShortestPaths startCity = some (m, net')) ∧
    (∀ start, net.findCity startCity = some start → ∃ out, ∀ fuel,
      connectionCount net.cities + 1 ≤ fuel →
      dijkstraLoop fuel (setStartDistance net.resetSearchData.cities start)
        (pqPush (setStartDistance net.resetSearchData.cities start) [] start) = some out) ∧
    (∀ (current : Nat) (roads : List RoadConnection) (cities : List City) (pq : List Nat),
      (relaxRoads current roads (cities, pq)).2.length
          + distanceSum (relaxRoads current roads (cities, pq)).1
        ≤ pq.length + distanceSum cities) := by
  refine ⟨?_, ?_, fun current roads cities pq => relaxRoads_pushes current roads cities pq⟩
  · obtain ⟨m, net1, h, _⟩ := calculateShortestPaths_total net startCity
    exact ⟨m, net1, h⟩
  · intro start h
    obtain ⟨out, hrun, _, _⟩ := calculateShortestPaths_spec net (entriesOf net.cities)
      (entriesOf_cover net.cities) startCity start h
    have hl := calculateShortestPaths_loop net startCity start h out _ hrun
    exact ⟨out, fun fuel hle => dijkstraLoop_fuel_le _ fuel _ _ out hl hle⟩

theorem mem_mapAssign : ∀ (m : List (String × Nat)) (key : String) (value : Nat)
    (e : String × Nat), e ∈ mapAssign m key value → e = (key, value) ∨ e ∈ m := by
  intro m
  induction m with
  | nil => intro key value e h; simpa [mapAssign] using h
  | cons e0 rest ih =>
    intro key value e h
    obtain ⟨k0, v0⟩ := e0
    simp only [mapAssign] at h
    by_cases h1 : lexLess key.data k0.data = true
    · simp only [h1, if_true, List.mem_cons] at h
      simp only [List.mem_cons]
      tauto
    · by_cases h2 : lexLess k0.data key.data = true
      · simp only [h1, h2, if_true, Bool.false_eq_true, if_false, List.mem_cons] at h
        rcases h with h | h
        · exact Or.inr (List.mem_cons.mpr (Or.inl h))
        · rcases ih key value e h with h' | h'
          · exact Or.inl h'
          · exact Or.inr (List.mem_cons_of_mem _ h')
      · have hk : k0 = key := by
          apply String.ext
          exact (lexLess_total _ _ (by simpa using h1) (by simpa using h2)).symm
        simp only [h1, h2, Bool.false_eq_true, if_false, List.mem_cons] at h
        rcases h with h | h
        · left; rw [h, hk]
        · exact Or.inr (List.mem_cons_of_mem _ h)

theorem mem_collectDistances : ∀ (cities : List City) (acc : List (String × Nat))
    (e : String × Nat), e ∈ collectDistances cities acc →
    e ∈ acc ∨ ∃ c ∈ cities, c.searchInfo.distance ≠ UINT_MAX ∧
      e = (c.name, c.searchInfo.distance) := by
  intro cities
  induction cities with
  | nil => intro acc e h; exact Or.inl (by simpa [collectDistances] using h)
  | cons c cs ih =>
    intro acc e h
    simp only [collectDistances] at h
    by_cases hc : c.searchInfo.distance ≠ UINT_MAX
    · rw [if_pos hc] at h
      rcases ih _ e h with h1 | ⟨c', hc', h2⟩
      · rcases mem_mapAssign _ _ _ e h1 with h3 | h3
        · exact Or.inr ⟨c, List.mem_cons_self _ _, hc, h3⟩
        · exact Or.inl h3
      · exact Or.inr ⟨c', List.mem_cons_of_mem _ hc', h2⟩
    · rw [if_neg hc] at h
      rcases ih _ e h with h1 | ⟨c', hc', h2⟩
      · exact Or.inl h1
      · exact Or.inr ⟨c', List.mem_cons_of_mem _ hc', h2⟩

/-- C11: for every network built from empty by `addCity`/`addRoad` (duplicate names and
any road lengths allowed) and every start name that names a city, the map returned by
`calculateShortestPaths` has an entry for the start name, and every entry for the start
name gives it the distance 0. -/
theorem start_maps_to_zero (ops : List BuildOp) (startCity : String) (start : Nat)
    (h : (build ops).findCity startCity = some start) :
    ∃ m net', (build ops).calculateShortestPaths startCity = some (m, net') ∧
      (startCity, 0) ∈ m ∧ ∀ v, (startCity, v) ∈ m → v = 0 := by
  have hwf := build_wellFormed ops
  obtain ⟨out, hrun, inv, _⟩ := calculateShortestPaths_spec (build ops) (roadsOf ops)
    (build_cover ops) startCity start h
  have hl := calculateShortestPaths_loop (build ops) startCity start h out _ hrun
  have hs : start < (build ops).cities.length := findCityIn_lt _ _ _ h
  have hzero : distanceOf out start = 0 := by
    have h1 := dijkstraLoop_distance_le _ _ _ _ hl start
    have h2 : distanceOf (setStartDistance (build ops).resetSearchData.cities start) start
        = 0 := by
      rw [distanceOf_setStartDistance _ _ _ (by simpa [CityNetwork.resetSearchData] using hs)]
      simp
    omega
  have hval : ∀ v, (startCity, v) ∈ collectDistances out [] → v = 0 := by
    intro v hv
    rcases mem_collectDistances out [] _ hv with h1 | ⟨c, hc, hfin, he⟩
    · simp at h1
    · obtain ⟨i, hi, hget⟩ := List.getElem_of_mem hc
      have hg : out[i]? = some c := by rw [List.getElem?_eq_getElem hi, hget]
      have hdi : distanceOf out i = c.searchInfo.distance := by simp [distanceOf, hg]
      have hni : nameOf (build ops).cities i = some startCity := by
        rw [← nameOf_of_reset_eq inv.frame]
        simp only [nameOf, hg, Option.map_some']
        rw [(Prod.mk.inj he).1]
      have hconn := inv.conn i hi (by rw [hdi]; exact hfin)
      have hfound := connected_found _ _ _ hwf ⟨startCity, h⟩ hconn
      have : i = start := found_inj _ _ _ hfound ⟨startCity, h⟩
        (by rw [hni, findCityIn_name _ _ _ h])
      rw [(Prod.mk.inj he).2, ← hdi, this, hzero]
  have hkey : startCity ∈ (collectDistances out []).map Prod.fst := by
    refine (mem_keys_iff out startCity).mpr ⟨start, inv.startFinite.1, inv.startFinite.2, ?_⟩
    rw [nameOf_of_reset_eq inv.frame]
    exact findCityIn_name _ _ _ h
  obtain ⟨⟨k, v⟩, hmem, hk⟩ := List.mem_map.mp hkey
  simp only at hk
  subst hk
  have := hval v hmem
  subst this
  exact ⟨_, _, hrun, hmem, hval⟩

theorem start_maps_to_zero_witness :
    ∃ m net', (build demoOps).calculateShortestPaths "Gotham" = some (m, net') ∧
      ("Gotham", 0) ∈ m ∧ ∀ v, ("Gotham", v) ∈ m → v = 0 :=
  start_maps_to_zero demoOps "Gotham" 1 (by decide)

theorem count_connectionsOf_emplace (cities : List City) (i d w k : Nat)
    (hi : i < cities.length) (e : RoadConnection) :
    (connectionsOf (emplaceConnection cities i d w) k).count e =
      (connectionsOf cities k).count e + (if k = i ∧ e = ⟨d, w⟩ then 1 else 0) := by
  rw [connectionsOf_emplace _ _ _ _ _ hi]
  by_cases hk : k = i
  · subst hk
    simp only [if_true, true_and, List.count_append, List.count_singleton]
    by_cases he : e = ⟨d, w⟩
    · simp [he]
    · have : ¬ (⟨d, w⟩ : RoadConnection) = e := fun h => he h.symm
      simp [he, this]
  · simp [hk]

theorem count_connectionsOf_addRoad (net : CityNetwork) (a b : String) (w i j k : Nat)
    (ha : net.findCity a = some i) (hb : net.findCity b = some j) (e : RoadConnection) :
    (connectionsOf (net.addRoad a b w).cities k).count e =
      (connectionsOf net.cities k).count e
        + (if k = i ∧ e = ⟨j, w % 4294967296⟩ then 1 else 0)
        + (if k = j ∧ e = ⟨i, w % 4294967296⟩ then 1 else 0) := by
  have hi := findCityIn_lt _ _ _ ha
  have hj := findCityIn_lt _ _ _ hb
  have hj' : j < (emplaceConnection net.cities i j (w % 4294967296)).length := by
    simpa [emplaceConnection] using hj
  have hcities : (net.addRoad a b w).cities =
      emplaceConnection (emplaceConnection net.cities i j (w % 4294967296)) j i
        (w % 4294967296) := by
    simp [CityNetwork.addRoad, ha, hb]
  rw [hcities, count_connectionsOf_emplace _ _ _ _ _ hj', count_connectionsOf_emplace _ _ _ _ _ hi]

theorem build_symmetric (ops : List BuildOp) (X Y w : Nat) :
    (connectionsOf (build ops).cities X).count ⟨Y, w⟩
      = (connectionsOf (build ops).cities Y).count ⟨X, w⟩ := by
  induction ops using List.reverseRecOn with
  | nil => simp [build, CityNetwork.empty, connectionsOf]
  | append_singleton ops op ih =>
    rw [build_snoc]
    cases op with
    | addCity name =>
      simp only [BuildOp.apply, CityNetwork.addCity, connectionsOf_append_new]
      exact ih
    | addRoad a b w' =>
      simp only [BuildOp.apply]
      cases ha : (build ops).findCity a with
      | none =>
        have : (build ops).addRoad a b w' = build ops := by simp [CityNetwork.addRoad, ha]
        rw [this]; exact ih
      | some i =>
        cases hb : (build ops).findCity b with
        | none =>
          have : (build ops).addRoad a b w' = build ops := by
            simp [CityNetwork.addRoad, ha, hb]
          rw [this]; exact ih
        | some j =>
          rw [count_connectionsOf_addRoad _ a b w' i j X ha hb,
            count_connectionsOf_addRoad _ a b w' i j Y ha hb, ih]
          simp only [RoadConnection.mk.injEq]
          have e1 : (X = i ∧ Y = j ∧ w = w' % 4294967296) ↔
              (Y = j ∧ X = i ∧ w = w' % 4294967296) := by tauto
          have e2 : (X = j ∧ Y = i ∧ w = w' % 4294967296) ↔
              (Y = i ∧ X = j ∧ w = w' % 4294967296) := by tauto
          simp only [e1, e2]
          omega

/-- C13: adjacency symmetry is an invariant of network construction: in every network
built from empty by `addCity`/`addRoad`, for distinct cities `X`, `Y` and every length
`w`, the list of `X` has as many entries `(Y, w)` as the list of `Y` has entries
`(X, w)`; and neither query changes any connection list. -/
theorem adjacency_symmetric :
    (∀ (ops : List BuildOp) (X Y w : Nat), X ≠ Y →
      (connectionsOf (build ops).cities X).count ⟨Y, w⟩
        = (connectionsOf (build ops).cities Y).count ⟨X, w⟩) ∧
    (∀ (net : CityNetwork) (name : String) (l : List String) (net1 : CityNetwork),
      net.findReachableCities name = some (l, net1) →
      ∀ i, connectionsOf net1.cities i = connectionsOf net.cities i) ∧
    (∀ (net : CityNetwork) (name : String) (m : List (String × Nat)) (net1 : CityNetwork),
      net.calculateShortestPaths name = some (m, net1) →
      ∀ i, connectionsOf net1.cities i = connectionsOf net.cities i) := by
  refine ⟨fun ops X Y w _ => build_symmetric ops X Y w, ?_, ?_⟩
  · intro net name l net1 h i
    obtain ⟨l', net', h', hf⟩ := findReachableCities_total net name
    rw [h] at h'
    have : net1 = net' := (Prod.mk.inj (Option.some.inj h')).2
    subst this
    exact connectionsOf_of_reset_eq (by simpa [CityNetwork.resetSearchData] using hf) i
  · intro net name m net1 h i
    obtain ⟨m', net', h', hf⟩ := calculateShortestPaths_total net name
    rw [h] at h'
    have : net1 = net' := (Prod.mk.inj (Option.some.inj h')).2
    subst this
    exact connectionsOf_of_reset_eq (by simpa [CityNetwork.resetSearchData] using hf) i

mutual
theorem preorderUpper_eq_filter : ∀ n : DistrictNode,
    preorderUpper n = (allSymbols n).filter isupper
  | .mk s cs => by
    rw [preorderUpper, allSymbols, List.filter_cons, preorderUpperList_eq_filter cs]
    split <;> simp
theorem preorderUpperList_eq_filter : ∀ q : List DistrictNode,
    preorderUpperList q = (allSymbolsList q).filter isupper
  | [] => by simp [preorderUpperList, allSymbolsList]
  | c :: cs => by
    rw [preorderUpperList, allSymbolsList, List.filter_append, preorderUpper_eq_filter c,
      preorderUpperList_eq_filter cs]
end

theorem bfsLoop_perm (fuel : Nat) : ∀ (q : List DistrictNode) (result : List Char),
    DistrictNode.sizeList q ≤ fuel →
    ∃ out, bfsLoop fuel q result = some (result ++ out) ∧ out.Perm (preorderUpperList q) := by
  induction fuel with
  | zero =>
    intro q result h
    cases q with
    | nil => exact ⟨[], by simp [bfsLoop], by simp [preorderUpperList]⟩
    | cons c cs =>
      cases c with
      | mk s ds => simp only [DistrictNode.sizeList, DistrictNode.size] at h; omega
  | succ fuel ih =>
    intro q result h
    cases q with
    | nil => exact ⟨[], by simp [bfsLoop], by simp [preorderUpperList]⟩
    | cons c cs =>
      cases c with
      | mk s ds =>
        simp only [DistrictNode.sizeList, DistrictNode.size] at h
        obtain ⟨out, h1, h2⟩ := ih (pushAll ds cs)
          (if isupper s then result ++ [s] else result)
          (by rw [pushAll_eq, sizeList_append]; omega)
        rw [pushAll_eq, preorderUpperList_append] at h2
        refine ⟨(if isupper s then [s] else []) ++ out, ?_, ?_⟩
        · rw [bfsLoop]
          simp only [DistrictNode.symbol, DistrictNode.subdistricts]
          rw [h1]
          split <;> simp
        · simp only [preorderUpperList, preorderUpper, List.append_assoc]
          exact List.Perm.append_left _ (h2.trans List.perm_append_comm)

/-- C20: for every district tree `findUppercaseDFS` and `findUppercaseBFS` return
permutations of each other, of equal length; each is a permutation of the list that has
one entry per tree node with an uppercase symbol; and when the root symbol is uppercase
both lists start with it. -/
theorem dfs_bfs_permutation (root : DistrictNode) :
    ∃ d b, (DistrictTree.mk (some root)).findUppercaseDFS = some d ∧
      (DistrictTree.mk (some root)).findUppercaseBFS = some b ∧
      d.Perm b ∧ d.length = b.length ∧
      d.Perm ((allSymbols root).filter isupper) ∧
      b.Perm ((allSymbols root).filter isupper) ∧
      (isupper root.symbol = true →
        d.head? = some root.symbol ∧ b.head? = some root.symbol) := by
  have hd := dfsLoop_eq root.size [root] [] (by simp [DistrictNode.sizeList])
  obtain ⟨out, hb, hperm⟩ := bfsLoop_perm root.size [root] [] (by simp [DistrictNode.sizeList])
  simp only [List.nil_append] at hd hb
  have hdp : preorderUpperList [root] = preorderUpper root := by simp [preorderUpperList]
  rw [hdp] at hd hperm
  have hpb : (preorderUpper root).Perm out := hperm.symm
  refine ⟨preorderUpper root, out, by simpa [DistrictTree.findUppercaseDFS] using hd,
    by simpa [DistrictTree.findUppercaseBFS] using hb, hpb, hpb.length_eq, ?_, ?_, ?_⟩
  · rw [preorderUpper_eq_filter]
  · rw [← preorderUpper_eq_filter]; exact hperm
  · intro hup
    cases root with
    | mk s ds =>
      simp only [DistrictNode.symbol] at hup ⊢
      refine ⟨by simp [preorderUpper, hup], ?_⟩
      have hsz : (DistrictNode.mk s ds).size = DistrictNode.sizeList ds + 1 := by
        simp [DistrictNode.size]; omega
      rw [hsz, bfsLoop] at hb
      simp only [DistrictNode.symbol, DistrictNode.subdistricts, hup, if_true,
        List.nil_append] at hb
      obtain ⟨out', h1, _⟩ := bfsLoop_perm (DistrictNode.sizeList ds) (pushAll ds []) [s]
        (by rw [pushAll_eq]; simp)
      rw [h1] at hb
      have : out = [s] ++ out' := (Option.some.inj hb).symm
      simp [this]

/-! ## Traces of the shortest-path loop -/

theorem dijkstraTrace_last : ∀ (fuel : Nat) (cities : List City) (pq : List Nat)
    (out : List City), dijkstraLoop fuel cities pq = some out →
    (dijkstraTrace fuel cities pq).getLast? = some (out, []) := by
  intro fuel
  induction fuel with
  | zero =>
    intro cities pq out h
    cases pq with
    | nil => simp [dijkstraLoop] at h; subst h; simp [dijkstraTrace]
    | cons a as => simp [dijkstraLoop] at h
  | succ fuel ih =>
    intro cities pq out h
    cases pq with
    | nil => simp [dijkstraLoop] at h; subst h; simp [dijkstraTrace]
    | cons current rest =>
      rw [dijkstraLoop] at h
      rw [dijkstraTrace]
      cases hget : cities[current]? with
      | none => simp [hget] at h
      | some c =>
        simp only [hget] at h ⊢
        by_cases hf : c.searchInfo.finalized = true
        · simp only [hf, if_true] at h ⊢
          have := ih _ _ _ h
          rw [List.getLast?_cons, this]; rfl
        · have hf' : c.searchInfo.finalized = false := by simpa using hf
          simp only [hf', Bool.false_eq_true, if_false] at h ⊢
          have := ih _ _ _ h
          rw [List.getLast?_cons, this]; rfl

/-- The trace ends in the state that `calculateShortestPaths` leaves behind. -/
theorem shortestPathsTrace_last (net : CityNetwork) (startCity : String) (start : Nat)
    (h : net.findCity startCity = some start) (m : List (String × Nat)) (net1 : CityNetwork)
    (hrun : net.calculateShortestPaths startCity = some (m, net1)) :
    (net.shortestPathsTrace startCity).getLast? = some (net1.cities, []) := by
  have h' : net.resetSearchData.findCity startCity = some start := by
    rw [findCity_resetSearchData]; exact h
  have hl := calculateShortestPaths_loop net startCity start h net1.cities m hrun
  simp only [CityNetwork.shortestPathsTrace, h']
  exact dijkstraTrace_last _ _ _ _ hl

/-- The heap vector after the relaxation loop holds the old entries and the logged
pushes. -/
theorem relaxPushes_perm (current : Nat) :
    ∀ (roads : List RoadConnection) (cities : List City) (pq : List Nat),
    (relaxRoads current roads (cities, pq)).2.Perm
      (((relaxPushes current roads cities).map Prod.fst).reverse ++ pq) := by
  intro roads
  induction roads with
  | nil => intro cities pq; simp [relaxRoads, relaxPushes]
  | cons road rest ih =>
    intro cities pq
    by_cases hlt : (distanceOf cities current + road.length) % 4294967296
        < distanceOf cities road.destination
    · simp only [relaxRoads, relaxPushes, if_pos hlt, List.map_cons, List.reverse_cons,
        List.append_assoc, List.singleton_append]
      exact (ih _ _).trans (List.Perm.append_left _ (pqPush_perm _ _ _))
    · simp only [relaxRoads, relaxPushes, if_neg hlt]
      exact ih _ _

/-- C14, evaluation of the code where it departs from the claim.  On `staleHeapOps`
(road lengths summing to 38), start A, the states at the head of the iterations are
listed as heap vector, distances and finalized flags of A, B, C, D, E.  In the third
state the city popped is D (city 3, distance 8, not finalized) although C (city 2), not
finalized either, has distance 4.  D is finalized with distance 8 (fourth state), and
the relaxation of C then changes the distance of D to 7 (fifth state). -/
theorem finalized_not_smallest :
    totalRoadLength (roadsOf staleHeapOps) = 38 ∧
    ((build staleHeapOps).shortestPathsTrace "A").map stateView =
      [([0], [0, 4294967295, 4294967295, 4294967295, 4294967295],
          [false, false, false, false, false]),
        ([4, 2], [0, 4294967295, 9, 4294967295, 1], [true, false, false, false, false]),
        ([3, 2, 1, 2], [0, 13, 4, 8, 1], [true, false, false, false, true]),
        ([2, 2, 1, 1], [0, 11, 4, 8, 1], [true, false, false, true, true]),
        ([2, 3, 1, 1], [0, 11, 4, 7, 1], [true, false, true, true, true]),
        ([3, 1, 1], [0, 11, 4, 7, 1], [true, false, true, true, true]),
        ([1, 1], [0, 11, 4, 7, 1], [true, false, true, true, true]),
        ([1], [0, 11, 4, 7, 1], [true, true, true, true, true]),
        ([], [0, 11, 4, 7, 1], [true, true, true, true, true])] ∧
    (((build staleHeapOps).shortestPathsTrace "A").getLast?).map
        (fun s => collectDistances s.1 [])
      = ((build staleHeapOps).calculateShortestPaths "A").map Prod.fst := by
  refine ⟨by decide, by decide, by decide⟩

/-- C15, evaluation of the code where it departs from the claim.  On `lazyOps` (the
witness of the claim) B is pushed with 10 and with 2 and is finalized with 2.  On
`staleHeapOps`, start A, the iterations are listed as city popped, skipped or not,
distance when popped, pushes: D (city 3) is pushed with distance 8 by E and with
distance 7 by C, and it is finalized and relaxed with the larger distance 8; the pop of
D with distance 7 is skipped. -/
theorem lazy_deletion_not_smallest :
    ((build lazyOps).calculateShortestPaths "A").map Prod.fst
      = some [("A", 0), ("B", 2), ("C", 1)] ∧
    ((build lazyOps).shortestPathsTrace "A").filterMap iterationOf =
      [(0, false, 0, [(1, 10), (2, 1)]), (2, false, 1, [(1, 2)]), (1, false, 2, []),
        (1, true, 2, [])] ∧
    totalRoadLength (roadsOf staleHeapOps) = 38 ∧
    ((build staleHeapOps).shortestPathsTrace "A").filterMap iterationOf =
      [(0, false, 0, [(2, 9), (4, 1)]), (4, false, 1, [(3, 8), (1, 13), (2, 4)]),
        (3, false, 8, [(1, 11)]), (2, false, 4, [(3, 7)]), (2, true, 4, []),
        (3, true, 7, []), (1, false, 11, []), (1, true, 11, [])] := by
  refine ⟨by decide, by decide, by decide, by decide⟩

/-- C17, evaluation of the code where it departs from the claim.  On `staleHeapOps`
(distinct names, road lengths summing to 38), start A, the search data afterwards is
listed as name, distance, predecessor: B has distance 11 and predecessor D (city 3),
D has distance 7, and the only road between D and B has length 3, so the distance of B
is not the distance of its predecessor plus a road length.  On `wrapOps` (road lengths
summing to `2^32 - 2`) B has predecessor C (city 2) and C has predecessor B (city 1):
the predecessor links from B and C never reach A. -/
theorem predecessors_not_a_tree :
    totalRoadLength (roadsOf staleHeapOps) = 38 ∧
    ((build staleHeapOps).calculateShortestPaths "A").map (fun r => searchView r.2.cities) =
      some [("A", 0, none), ("B", 11, some 3), ("C", 4, some 4), ("D", 7, some 2),
        ("E", 1, some 0)] ∧
    connectionsOf (build staleHeapOps).cities 3 = [⟨1, 3⟩, ⟨2, 3⟩, ⟨4, 7⟩] ∧
    connectionsOf (build staleHeapOps).cities 1 = [⟨3, 3⟩, ⟨4, 12⟩] ∧
    totalRoadLength (roadsOf wrapOps) = 4294967294 ∧
    ((build wrapOps).calculateShortestPaths "A").map (fun r => searchView r.2.cities) =
      some [("A", 0, none), ("B", 2147483645, some 2), ("C", 4294967294, some 1)] := by
  refine ⟨by decide, by decide, by decide, by decide, by decide, by decide⟩

/-! ## Breadth-first order of the reachability query -/

theorem mem_firstNew : ∀ (roads : List RoadConnection) (seen : List Nat) (x : Nat),
    x ∈ firstNew seen roads → x ∉ seen ∧ ∃ road ∈ roads, road.destination = x := by
  intro roads
  induction roads with
  | nil => intro seen x h; simp [firstNew] at h
  | cons road rest ih =>
    intro seen x h
    simp only [firstNew] at h
    by_cases hd : road.destination ∈ seen
    · rw [if_pos hd] at h
      obtain ⟨h1, r, hr, h2⟩ := ih seen x h
      exact ⟨h1, r, List.mem_cons_of_mem _ hr, h2⟩
    · rw [if_neg hd] at h
      rcases List.mem_cons.mp h with e | h'
      · subst e
        exact ⟨hd, road, List.mem_cons_self _ _, rfl⟩
      · obtain ⟨h1, r, hr, h2⟩ := ih _ x h'
        exact ⟨fun hx => h1 (List.mem_append_left _ hx), r, List.mem_cons_of_mem _ hr, h2⟩

theorem visitRoads_fresh (cities0 : List City) (start : Nat) (V : List Nat) :
    ∀ (roads : List RoadConnection) (cities : List City) (Q : List Nat),
    ReachInv cities0 start cities V Q →
    (∀ road ∈ roads, Connected cities0 start road.destination) →
    (∀ road ∈ roads, road.destination < cities0.length) →
    (visitRoads roads (cities, Q)).2 = Q ++ firstNew (V ++ Q) roads := by
  intro roads
  induction roads with
  | nil => intro cities Q _ _ _; simp [visitRoads, firstNew]
  | cons road rest ih =>
    intro cities Q inv hconn hrange
    have hlen : cities.length = cities0.length := length_of_reset_eq inv.frame
    have hlt : road.destination < cities.length := by
      have := hrange road (List.mem_cons_self _ _); omega
    by_cases hd : discoveredOf cities road.destination = false
    · have hnot : road.destination ∉ V ++ Q := by
        intro hmem
        have := (inv.disc _ hlt).mpr hmem
        rw [hd] at this; exact Bool.noConfusion this
      have hone : visitRoads [road] (cities, Q)
          = (setDiscovered cities road.destination, Q ++ [road.destination]) := by
        simp [visitRoads, hd]
      obtain ⟨ext, h1, h2, _⟩ := visitRoads_inv cities0 start V [road] cities Q inv
        (fun r hr => hconn r (by
          rw [List.mem_singleton] at hr; rw [hr]; exact List.mem_cons_self _ _))
      rw [hone] at h1 h2
      simp only at h1 h2
      rw [← h1] at h2
      have := ih (setDiscovered cities road.destination) (Q ++ [road.destination]) h2
        (fun r hr => hconn r (List.mem_cons_of_mem _ hr))
        (fun r hr => hrange r (List.mem_cons_of_mem _ hr))
      simp only [visitRoads, hd, if_true, firstNew, if_neg hnot]
      rw [this]
      simp [List.append_assoc]
    · have hdt : discoveredOf cities road.destination = true := by
        cases h : discoveredOf cities road.destination
        · exact absurd h hd
        · rfl
      have hmem : road.destination ∈ V ++ Q := (inv.disc _ hlt).mp hdt
      simp only [visitRoads, hd, if_false, firstNew, if_pos hmem]
      exact ih cities Q inv (fun r hr => hconn r (List.mem_cons_of_mem _ hr))
        (fun r hr => hrange r (List.mem_cons_of_mem _ hr))


theorem levelInv_step (cities0 : List City) (start : Nat) (lev : Nat → Nat)
    (V : List Nat) (u : Nat) (q ext : List Nat)
    (linv : LevelInv cities0 start lev V (u :: q))
    (hstart : start ∈ V ++ u :: q)
    (hclosed : RoadsClosed cities0 V (u :: q))
    (hext : ∀ x ∈ ext, x ∉ V ++ u :: q ∧
      ∃ road ∈ connectionsOf cities0 u, road.destination = x)
    (hclosedU : ∀ road ∈ connectionsOf cities0 u, road.destination < cities0.length →
      road.destination ∈ (V ++ [u]) ++ (q ++ ext)) :
    LevelInv cities0 start (fun x => if x ∈ ext then lev u + 1 else lev x)
      (V ++ [u]) (q ++ ext) := by
  have hold : ∀ x, x ∈ V ++ u :: q → (if x ∈ ext then lev u + 1 else lev x) = lev x := by
    intro x hx
    have : x ∉ ext := fun he => (hext x he).1 hx
    rw [if_neg this]
  have hnew : ∀ x, x ∈ ext → (if x ∈ ext then lev u + 1 else lev x) = lev u + 1 := by
    intro x hx; rw [if_pos hx]
  have hfront : ∀ x ∈ V ++ u :: q, lev x ≤ lev u + 1 :=
    fun x hx => linv.front u (by simp) x hx
  have hsplit : ∀ x, x ∈ (V ++ [u]) ++ (q ++ ext) ↔ x ∈ V ++ u :: q ∨ x ∈ ext := by
    intro x
    simp only [List.mem_append, List.mem_cons, List.mem_singleton, List.not_mem_nil, or_false]
    tauto
  have hu : u ∈ V ++ u :: q := by simp
  refine ⟨?_, ?_, ?_, ?_, ?_⟩
  · intro i hi
    rcases (hsplit i).mp hi with h | h
    · simp only [hold i h]; exact linv.route i h
    · simp only [hnew i h]
      obtain ⟨_, road, hr, hd⟩ := hext i h
      rw [← hd]
      exact HopRoute.step road (linv.route u hu) hr
  · have hassoc : (V ++ [u]) ++ (q ++ ext) = (V ++ u :: q) ++ ext := by simp
    rw [hassoc, List.pairwise_append]
    refine ⟨?_, ?_, ?_⟩
    · refine List.Pairwise.imp_of_mem ?_ linv.sorted
      intro a b ha hb hab
      simp only [hold a ha, hold b hb]; exact hab
    · refine List.Pairwise.imp_of_mem ?_ (List.pairwise_of_forall (R := fun _ _ => True)
        (fun _ _ => trivial))
      intro a b ha hb _
      simp only [hnew a ha, hnew b hb]; exact Nat.le_refl _
    · intro a ha b hb
      simp only [hold a ha, hnew b hb]
      exact hfront a ha
  · intro f hf x hx
    cases q with
    | nil =>
      simp only [List.nil_append] at hf
      have hfe : f ∈ ext := List.mem_of_mem_head? hf
      simp only [hnew f hfe]
      rcases (hsplit x).mp hx with h | h
      · simp only [hold x h]; have := hfront x h; omega
      · simp only [hnew x h]; omega
    | cons a q' =>
      simp only [List.cons_append, List.head?_cons, Option.mem_def, Option.some.injEq] at hf
      subst hf
      have ha : a ∈ V ++ u :: a :: q' := by simp
      have hua : lev u ≤ lev a := by
        have := linv.sorted
        rw [List.pairwise_append] at this
        have h2 := this.2.1
        rw [List.pairwise_cons] at h2
        exact h2.1 a (by simp)
      simp only [hold a ha]
      rcases (hsplit x).mp hx with h | h
      · simp only [hold x h]; have := hfront x h; omega
      · simp only [hnew x h]; omega
  · intro y hy road hr hlt
    rcases List.mem_append.mp hy with h | h
    · have hyL : y ∈ V ++ u :: q := List.mem_append_left _ h
      have hdL := hclosed y h road hr hlt
      simp only [hold y hyL, hold _ hdL]
      exact linv.roads y h road hr hlt
    · simp only [List.mem_singleton] at h
      subst h
      simp only [hold y hu]
      rcases (hsplit _).mp (hclosedU road hr hlt) with h' | h'
      · simp only [hold _ h']; exact hfront _ h'
      · simp only [hnew _ h']; exact Nat.le_refl _
  · simp only [hold start hstart]; exact linv.startLevel


theorem newsInv_step (cities0 : List City) (start : Nat) (news : List (List Nat))
    (V : List Nat) (u : Nat) (q : List Nat)
    (ninv : NewsInv cities0 start news V (u :: q)) :
    NewsInv cities0 start (news ++ [firstNew (V ++ u :: q) (connectionsOf cities0 u)])
      (V ++ [u]) (q ++ firstNew (V ++ u :: q) (connectionsOf cities0 u)) := by
  have hlen := ninv.length
  refine ⟨?_, ?_, ?_⟩
  · have hassoc : ∀ ext : List Nat, (V ++ [u]) ++ (q ++ ext) = (V ++ u :: q) ++ ext := by
      intro ext; simp
    rw [hassoc, ninv.order, List.flatten_append]
    simp
  · simp [hlen]
  · intro k u' hk
    by_cases hlt : k < V.length
    · rw [List.getElem?_append_left hlt] at hk
      rw [List.getElem?_append_left (by omega), List.take_append_of_le_length (by omega)]
      exact ninv.fresh k u' hk
    · rw [List.getElem?_append_right (by omega)] at hk
      have hk0 : k - V.length = 0 := by
        by_contra hne
        rw [List.getElem?_eq_none (by simp; omega)] at hk
        exact Option.noConfusion hk
      have hkV : k = V.length := by omega
      rw [hk0] at hk
      simp only [List.getElem?_cons_zero, Option.some.injEq] at hk
      subst hk
      have hkn : k = news.length := by omega
      rw [List.getElem?_append_right (by omega), hkn]
      simp only [Nat.sub_self, List.getElem?_cons_zero, Option.some.injEq]
      rw [List.take_append_of_le_length (Nat.le_refl _), List.take_length, ← ninv.order]

/-- The loop of `findReachableCities` with the levels and the lists of newly discovered
cities: all four invariants hold when the loop ends. -/
theorem reachLoop_levels (cities0 : List City) (start : Nat)
    (hrange : ∀ i, ∀ road ∈ connectionsOf cities0 i, road.destination < cities0.length) :
    ∀ (fuel : Nat) (cities : List City) (V Q : List Nat) (result : List String)
      (lev : Nat → Nat) (news : List (List Nat)),
    ReachInv cities0 start cities V Q → RoadsClosed cities0 V Q →
    LevelInv cities0 start lev V Q → NewsInv cities0 start news V Q →
    cities0.length ≤ fuel + V.length →
    result.map some = V.map (nameOf cities0) →
    ∃ V' result' cities' lev' news', reachLoop fuel cities Q result = some (result', cities') ∧
      result'.map some = V'.map (nameOf cities0) ∧
      ReachInv cities0 start cities' V' [] ∧ RoadsClosed cities0 V' [] ∧
      LevelInv cities0 start lev' V' [] ∧ NewsInv cities0 start news' V' [] := by
  intro fuel
  induction fuel with
  | zero =>
    intro cities V Q result lev news inv hclosed linv ninv hfuel hres
    have hlen : cities.length = cities0.length := length_of_reset_eq inv.frame
    have hb := nodup_bounded_length _ _ inv.nodup inv.inRange
    have hq : Q = [] := by
      cases Q with
      | nil => rfl
      | cons a q => simp at hb; omega
    subst hq
    exact ⟨V, result, cities, lev, news, by simp [reachLoop], hres, inv, hclosed, linv, ninv⟩
  | succ fuel ih =>
    intro cities V Q result lev news inv hclosed linv ninv hfuel hres
    have hlen : cities.length = cities0.length := length_of_reset_eq inv.frame
    cases Q with
    | nil =>
      exact ⟨V, result, cities, lev, news, by simp [reachLoop], hres, inv, hclosed, linv, ninv⟩
    | cons current q =>
      have hcur : current < cities.length := inv.inRange current (by simp)
      have hget : cities[current]? = some cities[current] := List.getElem?_eq_getElem hcur
      have hconnOf : connectionsOf cities0 current = cities[current].connections := by
        rw [← connectionsOf_of_reset_eq inv.frame, connectionsOf_eq hget]
      have hname : nameOf cities0 current = some cities[current].name := by
        rw [← nameOf_of_reset_eq inv.frame, nameOf_eq_some hget]
      have hassoc : V ++ current :: q = (V ++ [current]) ++ q := by simp
      have inv1 : ReachInv cities0 start cities (V ++ [current]) q := by
        refine ⟨inv.frame, ?_, ?_, ?_, ?_, ?_⟩
        · rw [← hassoc]; exact inv.nodup
        · rw [← hassoc]; exact inv.disc
        · rw [← hassoc]; exact inv.inRange
        · rw [← hassoc]; exact inv.conn
        · rw [← hassoc]; exact inv.hasStart
      have hcc : Connected cities0 start current := inv.conn current (by simp)
      have hconnR : ∀ road ∈ cities[current].connections,
          Connected cities0 start road.destination := by
        intro road hr
        exact Relation.ReflTransGen.tail hcc ⟨road, by rw [hconnOf]; exact hr, rfl⟩
      obtain ⟨ext, h1, h2, h3⟩ := visitRoads_inv cities0 start (V ++ [current])
        cities[current].connections cities q inv1 hconnR
      have hfresh := visitRoads_fresh cities0 start (V ++ [current])
        cities[current].connections cities q inv1 hconnR
        (fun road hr => hrange current road (by rw [hconnOf]; exact hr))
      have hext : ext = firstNew (V ++ current :: q) (connectionsOf cities0 current) := by
        rw [h1] at hfresh
        rw [hassoc, hconnOf]
        exact List.append_cancel_left hfresh
      have hclosed1 : RoadsClosed cities0 (V ++ [current]) (q ++ ext) := by
        intro i hi road hr hlt
        rcases List.mem_append.mp hi with h | h
        · have := hclosed i h road hr hlt
          simp only [List.mem_append, List.mem_cons] at this ⊢
          tauto
        · simp at h; subst h
          rw [hconnOf] at hr
          exact h3 road hr hlt
      have linv1 := levelInv_step cities0 start lev V current q ext linv inv.hasStart hclosed
        (by
          intro x hx
          rw [hext] at hx
          exact mem_firstNew _ _ x hx)
        (by
          intro road hr hlt
          rw [hconnOf] at hr
          exact h3 road hr hlt)
      have ninv1 := newsInv_step cities0 start news V current q ninv
      rw [← hext] at ninv1
      obtain ⟨V', result', cities', lev', news', hrun, hres', inv', hclosed', linv', ninv'⟩ :=
        ih (visitRoads cities[current].connections (cities, q)).1 (V ++ [current])
          (q ++ ext) (result ++ [cities[current].name]) _ _ h2 hclosed1 linv1 ninv1
          (by simp; omega) (by simp [hres, hname])
      refine ⟨V', result', cities', lev', news', ?_, hres', inv', hclosed', linv', ninv'⟩
      simp only [reachLoop, hget]
      rw [h1]; exact hrun


theorem reachInv_init (net : CityNetwork) (startCity : String) (start : Nat)
    (h : net.findCity startCity = some start) :
    ReachInv net.cities start (setDiscovered net.resetSearchData.cities start) [] [start] := by
  have hs : start < net.cities.length := findCityIn_lt _ _ _ h
  refine ⟨?_, by simp, ?_, ?_, ?_, by simp⟩
  · rw [setDiscovered_reset]; exact reset_idem _
  · intro i hi
    have hi' : i < net.cities.length := by
      simpa [setDiscovered, CityNetwork.resetSearchData] using hi
    rw [discoveredOf_setDiscovered]
    by_cases e : i = start
    · simp [e]
    · simp [e, CityNetwork.resetSearchData, discoveredOf_reset _ _ hi']
  · intro i hi
    simp at hi; subst hi
    simpa [setDiscovered, CityNetwork.resetSearchData] using hs
  · intro i hi
    simp at hi; subst hi
    exact Relation.ReflTransGen.refl

theorem hopRoute_level (cities0 : List City) (start : Nat) (lev : Nat → Nat) (V : List Nat)
    (hrange : ∀ i, ∀ road ∈ connectionsOf cities0 i, road.destination < cities0.length)
    (hstart : start ∈ V) (hclosed : RoadsClosed cities0 V [])
    (linv : LevelInv cities0 start lev V []) (x n : Nat) (hr : HopRoute cities0 start x n) :
    x ∈ V ∧ lev x ≤ n := by
  induction hr with
  | start => exact ⟨hstart, by rw [linv.startLevel]⟩
  | @step j n road _ hroad ih =>
    have hlt := hrange j road hroad
    have hmem := hclosed j ih.1 road hroad hlt
    have hle := linv.roads j ih.1 road hroad hlt
    exact ⟨by simpa using hmem, by omega⟩

/-- C16: for every network built from empty by `addCity`/`addRoad` and every start name
that names a city, `findReachableCities` returns the names of the cities of `order`,
where the hop distances (`levels`) of the cities of `order` from the start never
decrease along the list, and `order` is the start followed, city by city of `order`, by
the cities first discovered from that city: the destinations of its connection list not
discovered before, in connection-list order. -/
theorem findReachableCities_breadth_first (ops : List BuildOp) (startCity : String)
    (start : Nat) (h : (build ops).findCity startCity = some start) :
    ∃ (order levels : List Nat) (news : List (List Nat)) (l : List String)
      (net1 : CityNetwork),
      (build ops).findReachableCities startCity = some (l, net1) ∧
      l.map some = order.map (nameOf (build ops).cities) ∧
      List.Forall₂ (IsHopDistance (build ops).cities start) order levels ∧
      levels.Pairwise (fun a b => a ≤ b) ∧
      order = start :: news.flatten ∧ news.length = order.length ∧
      ∀ k u, order[k]? = some u →
        news[k]? = some (firstNew (start :: (news.take k).flatten)
          (connectionsOf (build ops).cities u)) := by
  have hwf := build_wellFormed ops
  have hrange : ∀ i, ∀ road ∈ connectionsOf (build ops).cities i,
      road.destination < (build ops).cities.length := by
    intro i road hr
    obtain ⟨nm, hnm⟩ := hwf i road hr
    exact findCityIn_lt _ _ _ hnm
  have h' : (build ops).resetSearchData.findCity startCity = some start := by
    rw [findCity_resetSearchData]; exact h
  have linv0 : LevelInv (build ops).cities start (fun _ => 0) [] [start] := by
    refine ⟨?_, by simp, ?_, ?_, rfl⟩
    · intro i hi
      simp at hi; subst hi
      exact HopRoute.start
    · intro f _ x _; exact Nat.zero_le _
    · intro y hy; simp at hy
  have ninv0 : NewsInv (build ops).cities start [] [] [start] := by
    refine ⟨by simp, rfl, ?_⟩
    intro k u hk; simp at hk
  obtain ⟨V, result, cities', lev, news, hrun, hres, inv, hclosed, linv, ninv⟩ :=
    reachLoop_levels (build ops).cities start hrange (build ops).cities.length _ [] [start] []
      (fun _ => 0) [] (reachInv_init (build ops) startCity start h)
      (by intro i hi; simp at hi) linv0 ninv0 (by simp) (by simp)
  have hstartV : start ∈ V := by simpa using inv.hasStart
  refine ⟨V, V.map lev, news, result, ⟨cities'⟩, ?_, hres, ?_, ?_, ?_, ?_, ?_⟩
  · simp [CityNetwork.findReachableCities, h', hrun]
  · rw [List.forall₂_map_right_iff, List.forall₂_same]
    intro x hx
    exact ⟨linv.route x (by simpa using hx),
      fun n hn => (hopRoute_level _ start lev V hrange hstartV hclosed linv x n hn).2⟩
  · rw [List.pairwise_map]
    simpa using linv.sorted
  · simpa using ninv.order
  · exact ninv.length
  · exact ninv.fresh

theorem findReachableCities_breadth_first_witness :
    ∃ (order levels : List Nat) (news : List (List Nat)) (l : List String)
      (net1 : CityNetwork),
      (build demoOps).findReachableCities "Metropolis" = some (l, net1) ∧
      l.map some = order.map (nameOf (build demoOps).cities) ∧
      List.Forall₂ (IsHopDistance (build demoOps).cities 0) order levels ∧
      levels.Pairwise (fun a b => a ≤ b) ∧
      order = 0 :: news.flatten ∧ news.length = order.length ∧
      ∀ k u, order[k]? = some u →
        news[k]? = some (firstNew (0 :: (news.take k).flatten)
          (connectionsOf (build demoOps).cities u)) :=
  findReachableCities_breadth_first demoOps "Metropolis" 0 (by decide)

end CityInfra
